import Mathlib

/-!
# PodDisruptionBudget processor (pkg/processor/poddisruptionbudget/pdb.go)

A shallow embedding of the processor that turns one PodDisruptionBudget object into a
chart template and a values fragment, followed by the properties proved about it.

Go strings and byte slices are embedded as `String`; the text functions work on the
underlying character lists.  Go maps (`map[string]interface{}`) are embedded as
association lists that keep insertion order and hold each key at most once.
Library functions the processor calls are embedded from their documented behaviour,
restricted to the fragment the processor exercises; collaborators reached through
interfaces or reflection are fields of `AppMetadata` and `Env`.
-/

namespace Helmify

/-! ## Untyped objects and values trees -/

/-- A decoded YAML/JSON value (`interface{}` inside `map[string]interface{}`). -/
inductive Value where
  | null
  | str (s : String)
  | int (n : Int)
  | bool (b : Bool)
  | list (l : List Value)
  | map (m : List (String × Value))

/-- The type `map[string]interface{}`: unstructured.Object and helmify.Values. -/
abbrev Values := List (String × Value)

/-- Go map read `m[k]`. -/
def mapGet (m : Values) (k : String) : Option Value :=
  match m with
  | [] => none
  | (k1, v) :: rest => if k1 = k then some v else mapGet rest k

/-- Go map write `m[k] = v`: replaces the entry of `k`, or adds one. -/
def mapSet (m : Values) (k : String) (v : Value) : Values :=
  match m with
  | [] => [(k, v)]
  | (k1, v1) :: rest => if k1 = k then (k1, v) :: rest else (k1, v1) :: mapSet rest k v

/-- The keys of a map. -/
def mapKeys (m : Values) : List String := m.map Prod.fst

/-- Go errors: a message, and the wrapped error when built with the `%w` verb. -/
inductive GoError where
  | base (msg : String)
  | wrapped (msg : String) (cause : GoError)

/-- Method `Error()`. -/
def GoError.Error : GoError → String
  | .base msg => msg
  | .wrapped msg _ => msg

/-- Function `errors.Unwrap`. -/
def GoError.Unwrap : GoError → Option GoError
  | .base _ => none
  | .wrapped _ cause => some cause

/-- Call `fmt.Errorf("%w" ++ suffix, err)`: the message of `err` followed by `suffix`,
wrapping `err`. -/
def Errorf_w (err : GoError) (suffix : String) : GoError :=
  .wrapped (err.Error ++ suffix) err

/-- Type schema.GroupVersionKind. -/
structure GroupVersionKind where
  Group : String
  Version : String
  Kind : String
  deriving DecidableEq, Repr

/-- Type unstructured.Unstructured. -/
structure Unstructured where
  Object : Values

/-- Splits at every occurrence of `sep` (`strings.Split` with a one-character separator). -/
def splitChar (sep : Char) : List Char → List (List Char)
  | [] => [[]]
  | c :: rest =>
    if c = sep then [] :: splitChar sep rest
    else
      match splitChar sep rest with
      | [] => [[c]]
      | l :: ls => (c :: l) :: ls

/-- Joins with `sep` between the pieces (`strings.Join` with a one-character separator). -/
def joinChar (sep : Char) : List (List Char) → List Char
  | [] => []
  | [l] => l
  | l :: ls => l ++ sep :: joinChar sep ls

/-- Helper getNestedString of package unstructured: the string at the path, or `""` when the
path is missing, crosses a non-map, or ends in a non-string. -/
def getNestedString (val : Value) : List String → String
  | [] =>
    match val with
    | .str s => s
    | _ => ""
  | f :: rest =>
    match val with
    | .map m =>
      match mapGet m f with
      | some v => getNestedString v rest
      | none => ""
    | _ => ""

/-- Method GetAPIVersion. -/
def Unstructured.GetAPIVersion (u : Unstructured) : String :=
  getNestedString (.map u.Object) ["apiVersion"]

/-- Method GetKind. -/
def Unstructured.GetKind (u : Unstructured) : String :=
  getNestedString (.map u.Object) ["kind"]

/-- Method GetName. -/
def Unstructured.GetName (u : Unstructured) : String :=
  getNestedString (.map u.Object) ["metadata", "name"]

/-- Function schema.ParseGroupVersion; `none` is its error result. -/
def ParseGroupVersion (gv : String) : Option (String × String) :=
  if gv = "" ∨ gv = "/" then some ("", "")
  else
    match splitChar '/' gv.data with
    | [v] => some ("", String.mk v)
    | [g, v] => some (String.mk g, String.mk v)
    | _ => none

/-- Method GroupVersionKind of unstructured.Unstructured. -/
def Unstructured.GroupVersionKind (u : Unstructured) : GroupVersionKind :=
  match ParseGroupVersion u.GetAPIVersion with
  | none => { Group := "", Version := "", Kind := "" }
  | some (g, v) => { Group := g, Version := v, Kind := u.GetKind }

/-! ## The typed disruption policy -/

/-- Type intstr.IntOrString: an `int32` count or a string such as `"50%"`. -/
inductive IntOrString where
  | int (IntVal : Int)
  | str (StrVal : String)

/-- Method String of intstr.IntOrString, on a non-nil receiver. -/
def IntOrString.String : IntOrString → String
  | .str s => s
  | .int n => toString n

/-- Type metav1.LabelSelectorRequirement. -/
structure LabelSelectorRequirement where
  key : String
  operator : String
  values : List String

/-- Type metav1.LabelSelector. -/
structure LabelSelector where
  matchLabels : List (String × String)
  matchExpressions : List LabelSelectorRequirement

/-- Type policyv1.PodDisruptionBudgetSpec; a nil pointer is `none`. -/
structure PodDisruptionBudgetSpec where
  MinAvailable : Option IntOrString
  Selector : Option LabelSelector
  MaxUnavailable : Option IntOrString

/-- Type policyv1.PodDisruptionBudget, the part the processor reads. -/
structure PodDisruptionBudget where
  Spec : PodDisruptionBudgetSpec

/-! ## Library text functions

Go strings are byte sequences; the embedding works on characters, which is the same thing
on the ASCII text the processor builds. -/

/-- Function unicode.IsSpace. -/
def isSpaceRune (c : Char) : Bool :=
  c = '\t' || c = '\n' || c = '\x0b' || c = '\x0c' || c = '\r' || c = ' ' ||
  c.toNat = 0x85 || c.toNat = 0xA0 || c.toNat = 0x1680 ||
  (0x2000 ≤ c.toNat && c.toNat ≤ 0x200a) ||
  c.toNat = 0x2028 || c.toNat = 0x2029 || c.toNat = 0x202f || c.toNat = 0x205f ||
  c.toNat = 0x3000

/-- Drops the characters at the end of `s` that satisfy `p`. -/
def dropRightWhile (p : Char → Bool) (s : List Char) : List Char :=
  (s.reverse.dropWhile p).reverse

/-- Function strings.TrimSpace. -/
def TrimSpace (s : List Char) : List Char :=
  dropRightWhile isSpaceRune (s.dropWhile isSpaceRune)

/-- Function bytes.TrimRight: removes every trailing character that occurs in `cutset`. -/
def TrimRight (s : String) (cutset : String) : String :=
  String.mk (dropRightWhile (fun c => cutset.data.contains c) s.data)

/-- The loop of toCamelInitCase in strcase v0.3.0 with no acronym configured (camel.go);
`first` says that the index `i` is 0. -/
def toCamelLoop : (capNext prevIsCap first : Bool) → List Char → List Char
  | _, _, _, [] => []
  | capNext, prevIsCap, first, v :: rest =>
    let vIsCap := decide ('A' ≤ v ∧ v ≤ 'Z')
    let vIsLow := decide ('a' ≤ v ∧ v ≤ 'z')
    let v1 :=
      if capNext then (if vIsLow then v.toUpper else v)
      else if first then (if vIsCap then v.toLower else v)
      else if prevIsCap && vIsCap then v.toLower
      else v
    if vIsCap || vIsLow then v1 :: toCamelLoop false vIsCap false rest
    else if decide ('0' ≤ v ∧ v ≤ '9') then v1 :: toCamelLoop true vIsCap false rest
    else toCamelLoop (v = '_' || v = ' ' || v = '-' || v = '.') vIsCap false rest

/-- Function toCamelInitCase of strcase. -/
def toCamelInitCase (s : String) (initCase : Bool) : String :=
  String.mk (toCamelLoop initCase false true (TrimSpace s.data))

/-- Function strcase.ToLowerCamel. -/
def ToLowerCamel (s : String) : String := toCamelInitCase s false

/-- Where the scan of a format string stands: in plain text, right after `%`, inside an
argument index `[n`, or after a closed index `[n]`. -/
inductive FmtState where
  | text
  | verb
  | index (n : Nat) (digits : Bool) (bad : Bool)
  | indexed (good : Bool)

/-- Prints the operand `argNum` under verb `c`; all operands are strings. -/
def printVerb (c : Char) (a : List (List Char)) (argNum : Nat) : List Char :=
  match a.get? argNum with
  | none => '%' :: '!' :: c :: "(MISSING)".data
  | some s =>
    if c = 's' ∨ c = 'v' then s
    else '%' :: '!' :: c :: "(string=".data ++ s ++ [')']

/-- The `%!(EXTRA ...)` suffix for operands that were left over. -/
def extraArgs (a : List (List Char)) : List Char :=
  "%!(EXTRA ".data ++
    (List.intercalate ", ".data (a.map (fun s => "string=".data ++ s))) ++ [')']

/-- The loop of doPrintf in package fmt for string operands, on the fragment made of plain
text, `%%`, the verbs `s` and `v`, and an explicit argument index `%[n]` before the verb.
Flags, width, precision and the other verbs that apply to strings are not part of the
embedding. -/
def doPrintf (a : List (List Char)) : FmtState → (argNum : Nat) → (reordered : Bool) →
    List Char → List Char
  | st, argNum, reordered, [] =>
    (match st with
      | .text => []
      | _ => "%!(NOVERB)".data) ++
    (if !reordered && argNum < a.length then extraArgs (a.drop argNum) else [])
  | .text, argNum, reordered, c :: rest =>
    if c = '%' then doPrintf a .verb argNum reordered rest
    else c :: doPrintf a .text argNum reordered rest
  | .verb, argNum, reordered, c :: rest =>
    if c = '[' then doPrintf a (.index 0 false false) argNum true rest
    else if c = '%' then '%' :: doPrintf a .text argNum reordered rest
    else if argNum < a.length then
      printVerb c a argNum ++ doPrintf a .text (argNum + 1) reordered rest
    else printVerb c a argNum ++ doPrintf a .text argNum reordered rest
  | .index n digits bad, argNum, reordered, c :: rest =>
    if c = ']' then
      if digits ∧ ¬ bad ∧ 1 ≤ n ∧ n ≤ a.length then
        doPrintf a (.indexed true) (n - 1) reordered rest
      else doPrintf a (.indexed false) argNum reordered rest
    else if c.isDigit then
      doPrintf a (.index (10 * n + (c.toNat - '0'.toNat)) true bad) argNum reordered rest
    else doPrintf a (.index n digits true) argNum reordered rest
  | .indexed good, argNum, reordered, c :: rest =>
    if c = '%' then '%' :: doPrintf a .text argNum reordered rest
    else if !good then
      '%' :: '!' :: c :: "(BADINDEX)".data ++ doPrintf a .text argNum reordered rest
    else if argNum < a.length then
      printVerb c a argNum ++ doPrintf a .text (argNum + 1) reordered rest
    else printVerb c a argNum ++ doPrintf a .text argNum reordered rest

/-- Function fmt.Sprintf with string operands. -/
def Sprintf (format : String) (a : List String) : String :=
  String.mk (doPrintf (a.map String.data) .text 0 false format.data)

/-- Constant maxInt of package heredoc. -/
def maxInt : Nat := 2 ^ 63 - 1

/-- Function getMinIndent of heredoc: the smallest indentation of a non-blank line, and the
lines with a blank last line emptied; `first` says that the index `i` is 0. -/
def getMinIndent : (minIndentSize : Nat) → (first skipFirstLine : Bool) →
    List (List Char) → Nat × List (List Char)
  | m, _, _, [] => (m, [])
  | m, first, skipFirstLine, line :: rest =>
    if first && skipFirstLine then
      let r := getMinIndent m false skipFirstLine rest
      (r.1, line :: r.2)
    else
      let indentSize := (line.takeWhile isSpaceRune).length
      if line.length = indentSize then
        if rest.isEmpty && decide (indentSize < m) then
          let r := getMinIndent m false skipFirstLine rest
          (r.1, [] :: r.2)
        else
          let r := getMinIndent m false skipFirstLine rest
          (r.1, line :: r.2)
      else if indentSize < m then
        let r := getMinIndent indentSize false skipFirstLine rest
        (r.1, line :: r.2)
      else
        let r := getMinIndent m false skipFirstLine rest
        (r.1, line :: r.2)

/-- Function removeIndentation of heredoc. -/
def removeIndentation : List (List Char) → (n : Nat) → (first skipFirstLine : Bool) →
    List (List Char)
  | [], _, _, _ => []
  | line :: rest, n, first, skipFirstLine =>
    if first && skipFirstLine then line :: removeIndentation rest n false skipFirstLine
    else if line.length ≥ n then line.drop n :: removeIndentation rest n false skipFirstLine
    else line :: removeIndentation rest n false skipFirstLine

/-- Function heredoc.Doc. -/
def Doc (raw : String) : String :=
  let p : List Char × Bool :=
    match raw.data with
    | '\n' :: r => (r, false)
    | r => (r, true)
  let lines := splitChar '\n' p.1
  let r := getMinIndent maxInt true p.2 lines
  String.mk (joinChar '\n' (removeIndentation r.2 r.1 true p.2))

/-- Function heredoc.Docf. -/
def Docf (raw : String) (args : List String) : String :=
  Sprintf (Doc raw) args

/-- Modelled from the spec: yamlformat.Indent (pkg/yaml) is not among the sources.  The
selector is "consistently re-indented ... an exact textual indent amount": the content gets
`n` spaces in front, and `n` spaces after each of its newlines. -/
def Indent (content : String) (n : Nat) : String :=
  let pad := List.replicate n ' '
  String.mk (pad ++ content.data.flatMap (fun c => if c = '\n' then '\n' :: pad else [c]))

/-! ## Collaborators -/

/-- Modelled from the spec: the conflict of Values.Add (pkg/helmify), which is not among the
sources: "an intermediate path segment already holds a non-mapping (leaf) value". -/
def conflictError (segment : String) : GoError :=
  .base ("ConflictError: " ++ segment ++ " already holds a leaf value")

/-- Modelled from the spec: Values.Add (pkg/helmify) is not among the sources.  Section 4.4:
"insert(path, value) -> previousValueAtPath or none, mutating the tree in place, creating
intermediate mappings as needed. Fails with a ConflictError if an intermediate path segment
already holds a non-mapping (leaf) value".  The path is `name` followed by `rest`; the
result is the previous value at the path and the tree after the insertion. -/
def Values.Add (v : Values) (value : Value) (name : String) :
    (rest : List String) → Except GoError (Option Value × Values)
  | [] => .ok (mapGet v name, mapSet v name value)
  | next :: rest =>
    match mapGet v name with
    | none =>
      match Values.Add [] value next rest with
      | .error e => .error e
      | .ok (prev, sub) => .ok (prev, mapSet v name (.map sub))
    | some (.map m) =>
      match Values.Add m value next rest with
      | .error e => .error e
      | .ok (prev, sub) => .ok (prev, mapSet v name (.map sub))
    | some _ => .error (conflictError name)

/-- Interface helmify.AppMetadata, the two methods the processor calls. -/
structure AppMetadata where
  TrimName : String → String
  ChartName : String

/-- The functions the processor reaches outside its package and the string libraries:
runtime.DefaultUnstructuredConverter.FromUnstructured into a PodDisruptionBudget,
processor.ProcessObjMeta, and yaml.Marshal of the selector (whose error is discarded). -/
structure Env where
  FromUnstructured : Values → Except GoError PodDisruptionBudget
  ProcessObjMeta : AppMetadata → Unstructured → Except GoError String
  Marshal : Option LabelSelector → String

/-! ## The processor -/

/-- Constant pdbTempSpec. -/
def pdbTempSpec : String :=
  "\nspec:\n  \x7b\x7b with .Values.%[1]s.minAvailable -\x7d\x7d\n  minAvailable: \x7b\x7b . \x7d\x7d\n  \x7b\x7b end -\x7d\x7d\n  \x7b\x7b with .Values.%[1]s.maxUnavailable -\x7d\x7d\n  maxUnavailable: \x7b\x7b . \x7d\x7d\n  \x7b\x7b end -\x7d\x7d\n  selector:\n%[2]s\n    \x7b\x7b- include \"%[3]s.selectorLabels\" . | nindent 6 \x7d\x7d"

/-- Constant pdbWrapperSpec. -/
def pdbWrapperSpec : String :=
  "\n\t  \x7b\x7b if .Values.%[1]s.enabled \x7d\x7d\n\t  %[2]s\n\t  \x7b\x7b end \x7d\x7d\n\t"

/-- Variable pdbGVC. -/
def pdbGVC : GroupVersionKind :=
  { Group := "policy", Version := "v1", Kind := "PodDisruptionBudget" }

/-- Type result. -/
structure result where
  name : String
  data : String
  values : Values

/-- Method Filename. -/
def result.Filename (r : result) : String := r.name ++ ".yaml"

/-- Method Values. -/
def result.Values (r : result) : Values := r.values

/-- Method Write, on a sink that appends what it is given and does not fail. -/
def result.Write (r : result) (writer : String) : String := writer ++ r.data

/-- The selector fragment of Process: marshal, indent by 4, trim the end. -/
def selectorFragment (env : Env) (pdb : PodDisruptionBudget) : String :=
  let selector := env.Marshal pdb.Spec.Selector
  let selector := Indent selector 4
  TrimRight selector "\n "

/-- Closure setOpt of Process, over the tree `values` and the key root `nameCamel`. -/
def setOpt (values : Values) (nameCamel : String) (k : String) (v : Option IntOrString) :
    Except GoError Values :=
  let r :=
    match v with
    | none => ""
    | some x => x.String
  match Values.Add values (.str r) nameCamel [k] with
  | .error err => .error err
  | .ok (_, values1) => .ok values1

/-- Method Process: the flag "processed", the template (nil is `none`) and the error
(nil is `none`). -/
def Process (env : Env) (appMeta : AppMetadata) (obj : Unstructured) :
    Bool × Option result × Option GoError :=
  if obj.GroupVersionKind ≠ pdbGVC then (false, none, none)
  else
    match env.FromUnstructured obj.Object with
    | .error err => (true, none, some (Errorf_w err ": unable to cast to pdb"))
    | .ok pdb =>
      let spec := pdb.Spec
      let values : Values := []
      match env.ProcessObjMeta appMeta obj with
      | .error err => (true, none, some err)
      | .ok objMeta =>
        let name := appMeta.TrimName obj.GetName
        let nameCamel := ToLowerCamel name
        let selector := selectorFragment env pdb
        match setOpt values nameCamel "maxUnavailable" spec.MaxUnavailable with
        | .error err => (true, none, some err)
        | .ok values1 =>
          match setOpt values1 nameCamel "minAvailable" spec.MinAvailable with
          | .error err => (true, none, some err)
          | .ok values2 =>
            let res := objMeta ++ Sprintf pdbTempSpec [nameCamel, selector, appMeta.ChartName]
            let res := Docf pdbWrapperSpec [nameCamel, res]
            match Values.Add values2 (.bool true) nameCamel ["enabled"] with
            | .error err => (true, none, some err)
            | .ok (_, values3) =>
              (true, some { name := name, data := res, values := values3 }, none)

/-! ## A concrete environment for the examples -/

/-- Function strings.TrimPrefix. -/
def TrimPrefix (s : String) (pre : String) : String :=
  if pre.data.isPrefixOf s.data then String.mk (s.data.drop pre.data.length) else s

/-- An AppMetadata whose TrimName removes the chart-wide name `pre` from the front. -/
def trimmingMeta (pre : String) (chart : String) : AppMetadata :=
  { TrimName := fun n => TrimPrefix n pre, ChartName := chart }

/-- Decodes a threshold: absent or null, a count, or a string; anything else is a type
mismatch. -/
def decodeThreshold : Option Value → Except GoError (Option IntOrString)
  | none => .ok none
  | some .null => .ok none
  | some (.int n) => .ok (some (.int n))
  | some (.str s) => .ok (some (.str s))
  | some _ => .error (.base "cannot restore IntOrString from the value")

/-- Decodes a map of labels, keeping the string entries. -/
def decodeLabels : Values → List (String × String)
  | [] => []
  | (k, .str s) :: rest => (k, s) :: decodeLabels rest
  | _ :: rest => decodeLabels rest

/-- Decodes the selector: its matchLabels. -/
def decodeSelector : Option Value → Option LabelSelector
  | some (.map m) =>
    match mapGet m "matchLabels" with
    | some (.map labels) => some { matchLabels := decodeLabels labels, matchExpressions := [] }
    | _ => some { matchLabels := [], matchExpressions := [] }
  | _ => none

/-- A decoder standing in for FromUnstructured in the examples: it reads the thresholds and
the matchLabels of `spec`, and fails on a threshold of the wrong type. -/
def exampleFromUnstructured (o : Values) : Except GoError PodDisruptionBudget :=
  let spec : Values :=
    match mapGet o "spec" with
    | some (.map m) => m
    | _ => []
  match decodeThreshold (mapGet spec "minAvailable") with
  | .error e => .error e
  | .ok minA =>
    match decodeThreshold (mapGet spec "maxUnavailable") with
    | .error e => .error e
    | .ok maxU =>
      .ok { Spec := { MinAvailable := minA, Selector := decodeSelector (mapGet spec "selector"),
                      MaxUnavailable := maxU } }

/-- A serializer standing in for yaml.Marshal in the examples. -/
def exampleMarshal : Option LabelSelector → String
  | none => "null\n"
  | some sel =>
    "matchLabels:\n" ++ String.join (sel.matchLabels.map (fun kv => "  " ++ kv.1 ++ ": " ++ kv.2 ++ "\n"))

/-- A preamble renderer standing in for ProcessObjMeta in the examples. -/
def exampleObjMeta (appMeta : AppMetadata) (obj : Unstructured) : Except GoError String :=
  .ok ("apiVersion: policy/v1\nkind: PodDisruptionBudget\nmetadata:\n  name: \x7b\x7b include \"" ++
    appMeta.ChartName ++ ".fullname\" . \x7d\x7d-" ++ appMeta.TrimName obj.GetName)

/-- The environment of the examples. -/
def exampleEnv : Env :=
  { FromUnstructured := exampleFromUnstructured
    ProcessObjMeta := exampleObjMeta
    Marshal := exampleMarshal }

/-- A policy/v1 PodDisruptionBudget object with the given name and `spec`. -/
def pdbObject (name : String) (spec : Values) : Unstructured :=
  { Object := [("apiVersion", .str "policy/v1"), ("kind", .str "PodDisruptionBudget"),
               ("metadata", .map [("name", .str name)]), ("spec", .map spec)] }

/-- The object of the end-to-end example: `my-app-pdb` with minAvailable 2. -/
def examplePdb : Unstructured :=
  pdbObject "my-app-pdb"
    [("minAvailable", .int 2), ("selector", .map [("matchLabels", .map [("app", .str "web")])])]

/-- An object whose trimmed name has a hyphen: `my-app-my-pdb` with maxUnavailable 50%. -/
def hyphenPdb : Unstructured :=
  pdbObject "my-app-my-pdb"
    [("maxUnavailable", .str "50%"), ("selector", .map [("matchLabels", .map [("app", .str "web")])])]

/-- An object of the handled kind whose minAvailable has the wrong type. -/
def malformedPdb : Unstructured :=
  pdbObject "my-app-pdb" [("minAvailable", .bool true)]

/-- An object of another kind: a core/v1 Service. -/
def exampleService : Unstructured :=
  { Object := [("apiVersion", .str "v1"), ("kind", .str "Service"),
               ("metadata", .map [("name", .str "my-app-svc")])] }

/-! ## Rendering the generated text

The generated text is input to Go text/template as run by Helm.  The embedding covers the
fragment the processor emits: text, the trim markers, `if` and `with` blocks closed by
`end` (no `else`), field chains on maps, string and number literals, pipelines, and the
functions `include`, `indent` and `nindent`.  A result `.error` stands for a template error
and for a template outside this fragment alike. -/

/-- Function isSpace of the template lexer: the characters a trim marker removes. -/
def tplSpace (c : Char) : Bool :=
  c = ' ' || c = '\t' || c = '\r' || c = '\n'

/-- A lexed piece of a template: text, or an action with its body and whether the left
and right delimiters carry a trim marker; `unclosed` is an action without right delimiter. -/
inductive TplToken where
  | text (s : List Char)
  | action (body : List Char) (trimLeft : Bool) (trimRight : Bool)
  | unclosed

/-- Puts a character in front of the text being lexed. -/
def pushText (c : Char) : List TplToken → List TplToken
  | .text s :: ts => .text (c :: s) :: ts
  | ts => .text [c] :: ts

/-- Puts a character in front of the action being lexed. -/
def pushAction (c : Char) : List TplToken → List TplToken
  | .action b l r :: ts => .action (c :: b) l r :: ts
  | ts => ts

/-- Records the trim marker of the left delimiter on the action that was just lexed. -/
def markLeft (l : Bool) : List TplToken → List TplToken
  | .action b _ r :: ts => .action b l r :: ts
  | ts => ts

/-- Function hasLeftTrimMarker: `-` and a space right after the left delimiter. -/
def hasLeftTrimMarker : List Char → Bool
  | '-' :: c :: _ => tplSpace c
  | _ => false

/-- The template lexer: splits at the delimiters; `skip` characters are passed over first.
The left delimiter may be followed by the trim marker `- `, the right one preceded by ` -`.
The first right delimiter closes the action. -/
def lexTemplate : (inAction : Bool) → (skip : Nat) → List Char → List TplToken
  | false, _, [] => []
  | true, _, [] => [.unclosed]
  | inAction, skip + 1, _ :: rest => lexTemplate inAction skip rest
  | false, 0, c :: rest =>
    if "\x7b\x7b".data.isPrefixOf (c :: rest) then
      if hasLeftTrimMarker (rest.drop 1) then markLeft true (lexTemplate true 3 rest)
      else markLeft false (lexTemplate true 1 rest)
    else pushText c (lexTemplate false 0 rest)
  | true, 0, c :: rest =>
    if tplSpace c && "-\x7d\x7d".data.isPrefixOf rest then
      .action [] false true :: lexTemplate false 3 rest
    else if "\x7d\x7d".data.isPrefixOf (c :: rest) then
      .action [] false false :: lexTemplate false 1 rest
    else pushAction c (lexTemplate true 0 rest)

/-- Whether the next token is an action with a left trim marker. -/
def nextTrimsLeft : List TplToken → Bool
  | .action _ true _ :: _ => true
  | _ => false

/-- Applies the trim markers to the neighbouring text; `after` says that the action before
carried a right trim marker. -/
def trimTokens : (after : Bool) → List TplToken → List TplToken
  | _, [] => []
  | after, .text s :: rest =>
    let s1 := if after then s.dropWhile tplSpace else s
    let s2 := if nextTrimsLeft rest then dropRightWhile tplSpace s1 else s1
    .text s2 :: trimTokens false rest
  | _, .action b l r :: rest => .action b l r :: trimTokens r rest
  | _, .unclosed :: rest => .unclosed :: trimTokens false rest

/-- Splits an action body into its space-separated words; `cur` is the word being read. -/
def tplWords (cur : List Char) : List Char → List (List Char)
  | [] => if cur.isEmpty then [] else [cur]
  | c :: rest =>
    if tplSpace c then (if cur.isEmpty then tplWords [] rest else cur :: tplWords [] rest)
    else tplWords (cur ++ [c]) rest

/-- An operand of a command. -/
inductive TplArg where
  | dot
  | field (path : List String)
  | str (s : String)
  | num (n : Nat)
  | fn (name : String)

/-- Function isAlphaNumeric of the template lexer, on ASCII. -/
def identChar (c : Char) : Bool :=
  c = '_' || c.isAlpha || c.isDigit

/-- An identifier: not empty, made of letters, digits and `_`, not starting with a digit. -/
def isIdent (s : List Char) : Bool :=
  match s with
  | [] => false
  | c :: _ => !c.isDigit && s.all identChar

/-- Reads a string literal after its opening quote, up to the closing quote that must end
the word; escapes are outside the fragment. -/
def parseQuoted : List Char → Option (List Char)
  | [] => none
  | c :: rest =>
    if c = '"' then (if rest.isEmpty then some [] else none)
    else if c = '\\' then none
    else (parseQuoted rest).map (fun s => c :: s)

/-- Reads a decimal number. -/
def parseNat (s : List Char) : Option Nat :=
  if s.isEmpty || !s.all Char.isDigit then none
  else some (s.foldl (fun n c => 10 * n + (c.toNat - '0'.toNat)) 0)

/-- Classifies a word of an action. -/
def parseWord (w : List Char) : Option TplArg :=
  match w with
  | [] => none
  | c :: rest =>
    if c = '.' then
      if rest.isEmpty then some .dot
      else if (splitChar '.' rest).all isIdent then
        some (.field ((splitChar '.' rest).map String.mk))
      else none
    else if c = '"' then (parseQuoted rest).map (fun s => .str (String.mk s))
    else if c.isDigit then (parseNat w).map .num
    else if isIdent w then some (.fn (String.mk w))
    else none

/-- Splits the operands of a pipeline at the `|` words. -/
def splitPipe : List (List Char) → List (List (List Char))
  | [] => [[]]
  | w :: rest =>
    if w = ['|'] then [] :: splitPipe rest
    else
      match splitPipe rest with
      | [] => [[w]]
      | cmd :: cmds => (w :: cmd) :: cmds

/-- Collects the results when every one is present. -/
def allSome {α : Type} : List (Option α) → Option (List α)
  | [] => some []
  | none :: _ => none
  | some a :: rest =>
    match allSome rest with
    | none => none
    | some as => some (a :: as)

/-- Classifies every word of every command; `none` when one is not in the fragment or a
command is empty. -/
def parsePipeline (ws : List (List Char)) : Option (List (List TplArg)) :=
  allSome ((splitPipe ws).map
    (fun cmd => if cmd.isEmpty then none else allSome (cmd.map parseWord)))

/-- A parsed piece of a template. -/
inductive TplNode where
  | text (s : List Char)
  | withNode (pipe : List (List TplArg))
  | ifNode (pipe : List (List TplArg))
  | endNode
  | print (pipe : List (List TplArg))

/-- Parses the body of an action. -/
def parseAction (body : List Char) : Option TplNode :=
  match tplWords [] body with
  | [] => none
  | w :: ws =>
    if w = "with".data then (parsePipeline ws).map .withNode
    else if w = "if".data then (parsePipeline ws).map .ifNode
    else if w = "end".data then (if ws.isEmpty then some .endNode else none)
    else if w = "else".data then none
    else (parsePipeline (w :: ws)).map .print

/-- Parses the tokens. -/
def parseTokens : List TplToken → Option (List TplNode)
  | [] => some []
  | .text s :: rest => (parseTokens rest).map (fun ns => .text s :: ns)
  | .action b _ _ :: rest =>
    match parseAction b with
    | none => none
    | some n => (parseTokens rest).map (fun ns => n :: ns)
  | .unclosed :: _ => none

/-- What a render needs besides the template: the value of `.Values` and the named
templates that `include` can call, as a function of the name and the data passed. -/
structure TplData where
  values : Values
  templates : String → Option Value → Option String

/-- Evaluates a field chain; a value is `none` when there is none (a missing key).
A field of no value, of null or of a non-map is an error. -/
def evalFields (v : Option Value) : List String → Except String (Option Value)
  | [] => .ok v
  | f :: rest =>
    match v with
    | some (.map m) => evalFields (mapGet m f) rest
    | _ => .error ("cannot evaluate field " ++ f)

/-- Evaluates an operand. -/
def evalArg (dot : Option Value) : TplArg → Except String (Option Value)
  | .dot => .ok dot
  | .field path => evalFields dot path
  | .str s => .ok (some (.str s))
  | .num n => .ok (some (.int n))
  | .fn name => .error ("function " ++ name ++ " used as an operand")

/-- Function indent of sprig: `pad + strings.Replace(v, "\n", "\n"+pad, -1)`. -/
def sprigIndent (spaces : Nat) (v : String) : String :=
  let pad := List.replicate spaces ' '
  String.mk (pad ++ v.data.flatMap (fun c => if c = '\n' then '\n' :: pad else [c]))

/-- Calls a function of the fragment on evaluated operands. -/
def callFunction (d : TplData) (name : String) (args : List (Option Value)) :
    Except String (Option Value) :=
  if name = "include" then
    match args with
    | [some (.str t), data] =>
      match d.templates t data with
      | some out => .ok (some (.str out))
      | none => .error ("no template " ++ t)
    | _ => .error "include: wrong operands"
  else if name = "indent" then
    match args with
    | [some (.int n), some (.str v)] => .ok (some (.str (sprigIndent n.toNat v)))
    | _ => .error "indent: wrong operands"
  else if name = "nindent" then
    match args with
    | [some (.int n), some (.str v)] => .ok (some (.str ("\n" ++ sprigIndent n.toNat v)))
    | _ => .error "nindent: wrong operands"
  else .error ("function " ++ name ++ " not defined")

/-- Evaluates all operands, stopping at the first error. -/
def evalArgs (dot : Option Value) : List TplArg → Except String (List (Option Value))
  | [] => .ok []
  | a :: rest =>
    match evalArg dot a, evalArgs dot rest with
    | .ok v, .ok vs => .ok (v :: vs)
    | .error e, _ => .error e
    | _, .error e => .error e

/-- Evaluates one command; `piped` is the value of the command before it in the pipeline,
passed as the last operand. -/
def evalCommand (d : TplData) (dot : Option Value) (cmd : List TplArg)
    (piped : Option (Option Value)) : Except String (Option Value) :=
  match cmd with
  | [] => .error "missing value for command"
  | .fn name :: args =>
    match evalArgs dot args with
    | .error e => .error e
    | .ok vs => callFunction d name (vs ++ piped.toList)
  | [a] =>
    match piped with
    | none => evalArg dot a
    | some _ => .error "cannot give argument to non-function"
  | _ => .error "operand applied to operands"

/-- Evaluates a pipeline from left to right. -/
def evalPipeline (d : TplData) (dot : Option Value) :
    List (List TplArg) → Option (Option Value) → Except String (Option Value)
  | [], none => .error "missing value for command"
  | [], some v => .ok v
  | cmd :: rest, piped =>
    match evalCommand d dot cmd piped with
    | .error e => .error e
    | .ok v => evalPipeline d dot rest (some v)

/-- Function isTrue of text/template: whether a value is not empty. -/
def isTrue : Option Value → Bool
  | none => false
  | some .null => false
  | some (.str s) => s ≠ ""
  | some (.int n) => n ≠ 0
  | some (.bool b) => b
  | some (.list l) => !l.isEmpty
  | some (.map m) => !m.isEmpty

/-- Puts an entry into a list of entries sorted by key. -/
def insertEntry (e : String × Value) : List (String × Value) → List (String × Value)
  | [] => [e]
  | x :: rest => if e.1 < x.1 then e :: x :: rest else x :: insertEntry e rest

/-- Sorts the entries of a map by key, as package fmt does before printing a map. -/
def sortEntries : List (String × Value) → List (String × Value)
  | [] => []
  | e :: rest => insertEntry e (sortEntries rest)

mutual
/-- The `%v` form of a value inside a list or a map: strings bare, nil as `<nil>`, a list
as `[a b]`, a map as `map[k:v]`. -/
def fmtValue : Value → List Char
  | .null => "<nil>".data
  | .str s => s.data
  | .int n => (toString n).data
  | .bool b => (toString b).data
  | .list l => '[' :: fmtList l ++ [']']
  | .map m => "map[".data ++ fmtEntries m ++ [']']
/-- The elements of a list, separated by spaces. -/
def fmtList : List Value → List Char
  | [] => []
  | [v] => fmtValue v
  | v :: rest => fmtValue v ++ ' ' :: fmtList rest
/-- The entries of a map, `key:value`, separated by spaces. -/
def fmtEntries : List (String × Value) → List Char
  | [] => []
  | [(k, v)] => k.data ++ ':' :: fmtValue v
  | (k, v) :: rest => k.data ++ ':' :: fmtValue v ++ ' ' :: fmtEntries rest
end

/-- Function printValue of text/template: what an action prints for a value; no value and
null print as `<no value>`, a map with its keys sorted. -/
def printValue : Option Value → List Char
  | none => "<no value>".data
  | some .null => "<no value>".data
  | some (.map m) => fmtValue (.map (sortEntries m))
  | some v => fmtValue v

/-- Executes the nodes.  `stack` holds, for each open block, the dot and the activity to
restore at its `end`; `active` is false inside a block whose condition did not hold. -/
def execNodes (d : TplData) : (stack : List (Option Value × Bool)) → (dot : Option Value) →
    (active : Bool) → List TplNode → Except String (List Char)
  | stack, _, _, [] => if stack.isEmpty then .ok [] else .error "unexpected EOF"
  | stack, dot, active, .text s :: rest =>
    match execNodes d stack dot active rest with
    | .error e => .error e
    | .ok out => .ok (if active then s ++ out else out)
  | stack, dot, active, .withNode pipe :: rest =>
    if active then
      match evalPipeline d dot pipe none with
      | .error e => .error e
      | .ok v =>
        if isTrue v then execNodes d ((dot, active) :: stack) v true rest
        else execNodes d ((dot, active) :: stack) dot false rest
    else execNodes d ((dot, active) :: stack) dot false rest
  | stack, dot, active, .ifNode pipe :: rest =>
    if active then
      match evalPipeline d dot pipe none with
      | .error e => .error e
      | .ok v => execNodes d ((dot, active) :: stack) dot (isTrue v) rest
    else execNodes d ((dot, active) :: stack) dot false rest
  | stack, _, _, .endNode :: rest =>
    match stack with
    | [] => .error "unexpected end"
    | (dot, active) :: stack1 => execNodes d stack1 dot active rest
  | stack, dot, active, .print pipe :: rest =>
    if active then
      match evalPipeline d dot pipe none with
      | .error e => .error e
      | .ok v =>
        match execNodes d stack dot active rest with
        | .error e => .error e
        | .ok out => .ok (printValue v ++ out)
    else execNodes d stack dot active rest

/-- Renders a template: lex, trim, parse, execute with dot set to the root context, whose
field `Values` is the values tree. -/
def render (d : TplData) (tpl : String) : Except String String :=
  match parseTokens (trimTokens false (lexTemplate false 0 tpl.data)) with
  | none => .error "parse error"
  | some nodes =>
    match execNodes d [] (some (.map [("Values", .map d.values)])) true nodes with
    | .error e => .error e
    | .ok out => .ok (String.mk out)

/-! ## Texts and values the properties are stated with -/

/-- The string stored for a threshold: empty when it is absent, the decimal rendering of a
count, the string itself otherwise. -/
def thresholdText : Option IntOrString → String
  | none => ""
  | some (.int n) => toString n
  | some (.str s) => s

/-- The Logical Name of an object: its name with the chart-wide part trimmed, in lower
camel case. -/
def logicalName (appMeta : AppMetadata) (obj : Unstructured) : String :=
  ToLowerCamel (appMeta.TrimName obj.GetName)

/-- The opening guard on the `enabled` key under `L`. -/
def guardOpen (L : String) : String :=
  "\x7b\x7b if .Values." ++ (L ++ ".enabled \x7d\x7d")

/-- The closing of the outer guard. -/
def guardClose : String := "\x7b\x7b end \x7d\x7d"

/-- A `with` block on the key `field` under `L`, holding the line of that field. -/
def withBlock (L : String) (field : String) : String :=
  "\x7b\x7b with .Values." ++ (L ++ ("." ++ (field ++ (" -\x7d\x7d\n  " ++ (field ++
    ": \x7b\x7b . \x7d\x7d\n  \x7b\x7b end -\x7d\x7d")))))

/-- The inclusion reference to the selector labels of chart `C`. -/
def includeRef (C : String) : String :=
  "\x7b\x7b- include \"" ++ (C ++ ".selectorLabels\" . | nindent 6 \x7d\x7d")

/-- The `spec:` stanza: the minAvailable block, the maxUnavailable block, then the selector
line followed by the fragment `F` and the inclusion reference. -/
def specStanza (L : String) (F : String) (C : String) : String :=
  "\nspec:\n  " ++ (withBlock L "minAvailable" ++ ("\n  " ++ (withBlock L "maxUnavailable" ++
    ("\n  selector:\n" ++ (F ++ ("\n    " ++ includeRef C))))))

/-- The values tree of one resource. -/
def valuesOf (L : String) (sMax : String) (sMin : String) : Values :=
  [(L, .map [("maxUnavailable", .str sMax), ("minAvailable", .str sMin),
             ("enabled", .bool true)])]

/-- The environment of the examples with the chart `my-app`. -/
def exampleMeta : AppMetadata := trimmingMeta "my-app-" "my-app"

/-- An object of the handled kind with an empty name, whose Logical Name is empty. -/
def namelessPdb : Unstructured := pdbObject "" []

/-- The policy that the example decoder reads from `examplePdb`. -/
def examplePolicy : PodDisruptionBudget :=
  { Spec := { MinAvailable := some (.int 2),
              Selector := some { matchLabels := [("app", "web")], matchExpressions := [] },
              MaxUnavailable := none } }

/-- The preamble that the example renderer gives for `examplePdb`. -/
def examplePreamble : String :=
  "apiVersion: policy/v1\nkind: PodDisruptionBudget\nmetadata:\n  name: \x7b\x7b include \"my-app.fullname\" . \x7d\x7d-pdb"

/-- The template that Process returns for `examplePdb`. -/
def exampleResult : result :=
  { name := "pdb"
    data := "\x7b\x7b if .Values.pdb.enabled \x7d\x7d\napiVersion: policy/v1\nkind: PodDisruptionBudget\nmetadata:\n  name: \x7b\x7b include \"my-app.fullname\" . \x7d\x7d-pdb\nspec:\n  \x7b\x7b with .Values.pdb.minAvailable -\x7d\x7d\n  minAvailable: \x7b\x7b . \x7d\x7d\n  \x7b\x7b end -\x7d\x7d\n  \x7b\x7b with .Values.pdb.maxUnavailable -\x7d\x7d\n  maxUnavailable: \x7b\x7b . \x7d\x7d\n  \x7b\x7b end -\x7d\x7d\n  selector:\n    matchLabels:\n      app: web\n    \x7b\x7b- include \"my-app.selectorLabels\" . | nindent 6 \x7d\x7d\n\x7b\x7b end \x7d\x7d\n"
    values := [("pdb", .map [("maxUnavailable", .str ""), ("minAvailable", .str "2"),
                             ("enabled", .bool true)])] }

/-- The template that Process returns for `hyphenPdb`. -/
def hyphenResult : result :=
  { name := "my-pdb"
    data := "\x7b\x7b if .Values.myPdb.enabled \x7d\x7d\napiVersion: policy/v1\nkind: PodDisruptionBudget\nmetadata:\n  name: \x7b\x7b include \"my-app.fullname\" . \x7d\x7d-my-pdb\nspec:\n  \x7b\x7b with .Values.myPdb.minAvailable -\x7d\x7d\n  minAvailable: \x7b\x7b . \x7d\x7d\n  \x7b\x7b end -\x7d\x7d\n  \x7b\x7b with .Values.myPdb.maxUnavailable -\x7d\x7d\n  maxUnavailable: \x7b\x7b . \x7d\x7d\n  \x7b\x7b end -\x7d\x7d\n  selector:\n    matchLabels:\n      app: web\n    \x7b\x7b- include \"my-app.selectorLabels\" . | nindent 6 \x7d\x7d\n\x7b\x7b end \x7d\x7d\n"
    values := [("myPdb", .map [("maxUnavailable", .str "50%"), ("minAvailable", .str ""),
                               ("enabled", .bool true)])] }

/-- The characters that Process trims from the end of the selector: newline and space. -/
def trimChar (c : Char) : Bool := c = '\n' || c = ' '

/-- The text `y` with `n` spaces put in front of each of its lines. -/
def indentedLines (n : Nat) (y : List Char) : List Char :=
  joinChar '\n' ((splitChar '\n' y).map (fun line => List.replicate n ' ' ++ line))

/-- What a chart name must avoid to stand inside the quoted template name of the inclusion
reference: quotes, backslashes, closing braces and spaces. -/
def chartNameOk (C : List Char) : Bool :=
  C.all (fun x => x != '"' && x != '\\' && x != '\x7d' && !tplSpace x)

/-- The line a threshold gives in the rendered text: the key, the printed value and the
indentation of the next line when the value is set and not empty in the sense of `isTrue`,
nothing otherwise. -/
def renderedLine (key : String) (v : Option Value) : String :=
  if isTrue v then key ++ (": " ++ (String.mk (printValue v) ++ "\n  ")) else ""

/-- Whether a text holds no left delimiter: no two opening braces in a row. -/
def noOpenDelim : List Char → Bool
  | [] => true
  | [_] => true
  | c :: d :: rest => !(c = '\x7b' && d = '\x7b') && noOpenDelim (d :: rest)

/-- Whether a text can stand right before an action: it holds no left delimiter and does
not end in an opening brace. -/
def plainText (s : List Char) : Bool :=
  noOpenDelim s && (s.getLast? != some '\x7b')

/-- The body of a `with` action on the key `k` under `l`, after the left delimiter and its
space. -/
def withBody (l : List Char) (k : List Char) : List Char :=
  "with .Values.".data ++ (l ++ '.' :: k)

/-- The body of the inclusion reference of chart `c`, after the left trim marker. -/
def includeBody (c : List Char) : List Char :=
  "include".data ++ ' ' :: (('"' :: (c ++ ".selectorLabels\"".data)) ++ " . | nindent 6 ".data)

/-- The characters of the spec stanza from its first action on, cut at the delimiters,
followed by `r`. -/
def specActions (l : List Char) (f : List Char) (c : List Char) (r : List Char) : List Char :=
  '\x7b' :: '\x7b' :: ' ' :: (withBody l "minAvailable".data ++ ' ' :: '-' :: '\x7d' :: '\x7d' ::
  ("\n  minAvailable: ".data ++ '\x7b' :: '\x7b' :: ' ' :: (". ".data ++ '\x7d' :: '\x7d' ::
  ("\n  ".data ++ '\x7b' :: '\x7b' :: ' ' :: ("end".data ++ ' ' :: '-' :: '\x7d' :: '\x7d' ::
  ("\n  ".data ++ '\x7b' :: '\x7b' :: ' ' :: (withBody l "maxUnavailable".data ++
    ' ' :: '-' :: '\x7d' :: '\x7d' ::
  ("\n  maxUnavailable: ".data ++ '\x7b' :: '\x7b' :: ' ' :: (". ".data ++ '\x7d' :: '\x7d' ::
  ("\n  ".data ++ '\x7b' :: '\x7b' :: ' ' :: ("end".data ++ ' ' :: '-' :: '\x7d' :: '\x7d' ::
  (("\n  selector:\n".data ++ (f ++ "\n    ".data)) ++ '\x7b' :: '\x7b' :: '-' :: ' ' ::
    (includeBody c ++ '\x7d' :: '\x7d' :: r)))))))))))))

/-- The tokens of the spec stanza from its first action on. -/
def specTokens (l : List Char) (f : List Char) (c : List Char) : List TplToken :=
  [.action (' ' :: withBody l "minAvailable".data) false true,
   .text "\n  minAvailable: ".data,
   .action " . ".data false false,
   .text "\n  ".data,
   .action " end".data false true,
   .text "\n  ".data,
   .action (' ' :: withBody l "maxUnavailable".data) false true,
   .text "\n  maxUnavailable: ".data,
   .action " . ".data false false,
   .text "\n  ".data,
   .action " end".data false true,
   .text ("\n  selector:\n".data ++ (f ++ "\n    ".data)),
   .action (includeBody c) true false]

/-- The nodes of the spec stanza from its first action on, after trimming. -/
def specNodes (l : List Char) (f : List Char) (c : List Char) : List TplNode :=
  [.withNode [[.field ["Values", String.mk l, "minAvailable"]]],
   .text "minAvailable: ".data,
   .print [[.dot]],
   .text "\n  ".data,
   .endNode,
   .text [],
   .withNode [[.field ["Values", String.mk l, "maxUnavailable"]]],
   .text "maxUnavailable: ".data,
   .print [[.dot]],
   .text "\n  ".data,
   .endNode,
   .text (dropRightWhile tplSpace ("selector:\n".data ++ f)),
   .print [[.fn "include", .str (String.mk (c ++ ".selectorLabels".data)), .dot],
           [.fn "nindent", .num 6]]]

/-- The characters a threshold gives in the rendered text. -/
def lineChars (key : List Char) (v : Option Value) : List Char :=
  if isTrue v then key ++ (": ".data ++ (printValue v ++ "\n  ".data)) else []

/-- The body of the outer `if` action under `l`, after the left delimiter and its space. -/
def ifBody (l : List Char) : List Char :=
  "if .Values.".data ++ (l ++ '.' :: ("enabled".data ++ [' ']))

/-- The characters that close the outer guard after the spec stanza. -/
def guardTail : List Char :=
  "\n".data ++ '\x7b' :: '\x7b' :: ' ' :: ("end ".data ++ '\x7d' :: '\x7d' :: "\n".data)

/-- The selector fragment of the examples. -/
def exampleFragment : String := "    matchLabels:\n      app: web"

/-- The selector labels that the chart of the examples defines. -/
def exampleLabels : String :=
  "app.kubernetes.io/name: my-app\napp.kubernetes.io/instance: release"

/-- An object whose trimmed name starts with a digit: `my-app-2nd-pdb` with
maxUnavailable 50%. -/
def digitPdb : Unstructured :=
  pdbObject "my-app-2nd-pdb"
    [("maxUnavailable", .str "50%"), ("selector", .map [("matchLabels", .map [("app", .str "web")])])]

/-- The templates of a chart `my-app`: its full name and its selector labels. -/
def chartTemplates (name : String) (_ : Option Value) : Option String :=
  if name = "my-app.fullname" then some "release-my-app"
  else if name = "my-app.selectorLabels" then
    some "app.kubernetes.io/name: my-app\napp.kubernetes.io/instance: release"
  else none

/-- A print action of a preamble together with the text before it; `trim` says that the
left delimiter carries a trim marker. -/
structure Piece where
  text : List Char
  trim : Bool
  body : List Char

/-- The characters of a piece, followed by `r`. -/
def Piece.chars (p : Piece) (r : List Char) : List Char :=
  if p.trim then p.text ++ '\x7b' :: '\x7b' :: '-' :: ' ' :: (p.body ++ '\x7d' :: '\x7d' :: r)
  else p.text ++ '\x7b' :: '\x7b' :: ' ' :: (p.body ++ '\x7d' :: '\x7d' :: r)

/-- The characters of a preamble given by its pieces, followed by `r`. -/
def writePieces : List Piece → List Char → List Char
  | [], r => r
  | p :: ps, r => p.chars (writePieces ps r)

/-- The body of the action of a piece as the lexer delivers it. -/
def Piece.lexed (p : Piece) : List Char :=
  if p.trim then p.body else ' ' :: p.body

/-- The tokens of a preamble given by its pieces, followed by `ts`. -/
def pieceTokens : List Piece → List TplToken → List TplToken
  | [], ts => ts
  | p :: ps, ts => p.text.foldr pushText (.action p.lexed p.trim false :: pieceTokens ps ts)

/-- What the action of a piece prints, when it is a print action whose pipeline evaluates. -/
def Piece.printed (d : TplData) (dot : Option Value) (p : Piece) : Option (List Char) :=
  match parseAction p.lexed with
  | some (.print pipe) =>
    match evalPipeline d dot pipe none with
    | .ok v => some (printValue v)
    | .error _ => none
  | _ => none

/-- Whether a piece is well formed: its text holds no left delimiter and does not end in an
opening brace, its action body is not empty, holds no closing brace, does not end in `-`,
and is a print action that evaluates. -/
def Piece.ok (d : TplData) (dot : Option Value) (p : Piece) : Bool :=
  plainText p.text && p.body.all (fun x => x != '\x7d') && (p.body.getLast? != some '-') &&
    !p.body.isEmpty && (p.printed d dot).isSome

/-- What the pieces of a preamble render to: each text, trimmed on the right when the action
after it carries the trim marker, followed by what the action prints. -/
def piecesOut (d : TplData) (dot : Option Value) : List Piece → List Char
  | [] => []
  | p :: ps =>
    (if p.trim then dropRightWhile tplSpace p.text else p.text) ++
      ((p.printed d dot).getD [] ++ piecesOut d dot ps)

/-- Puts the characters `c` in front of the first text of a preamble. -/
def leadPieces (c : List Char) : List Piece → List Piece
  | [] => []
  | p :: ps => { p with text := c ++ p.text } :: ps

/-- The last text of a preamble with the characters `c` in front when there is no piece. -/
def leadLast (c : List Char) (ps : List Piece) (last : List Char) : List Char :=
  if ps.isEmpty then c ++ last else last

/-- Parses and executes tokens. -/
def runTokens (d : TplData) (stack : List (Option Value × Bool)) (dot : Option Value)
    (toks : List TplToken) : Except String (List Char) :=
  match parseTokens (trimTokens false toks) with
  | none => .error "parse error"
  | some nodes => execNodes d stack dot true nodes

/-- The pieces of the preamble of the examples: the text up to the name, the inclusion of the
full name of the chart; the text `-pdb` comes last. -/
def examplePieces : List Piece :=
  [{ text := "apiVersion: policy/v1\nkind: PodDisruptionBudget\nmetadata:\n  name: ".data,
     trim := false,
     body := "include \"my-app.fullname\" . ".data }]

/-- The pieces of a preamble with labels: the name, then the labels of the chart included
with a trim marker; the last text is empty. -/
def labelPieces : List Piece :=
  [{ text := "metadata:\n  name: ".data, trim := false,
     body := "include \"my-app.fullname\" . ".data },
   { text := "-pdb\n  labels:\n  ".data, trim := true,
     body := "include \"my-app.selectorLabels\" . | nindent 4 ".data }]

set_option maxRecDepth 20000

/-! ## Lemmas on the format strings and the insertions -/

theorem Doc_pdbWrapperSpec :
    Doc pdbWrapperSpec =
      "\x7b\x7b if .Values.%[1]s.enabled \x7d\x7d\n%[2]s\n\x7b\x7b end \x7d\x7d\n" := by
  rfl

theorem Docf_pdbWrapperSpec (L res : String) :
    Docf pdbWrapperSpec [L, res] =
      guardOpen L ++ ("\n" ++ (res ++ ("\n" ++ (guardClose ++ "\n")))) := by
  have h : Docf pdbWrapperSpec [L, res] =
      "\x7b\x7b if .Values." ++ (L ++ (".enabled \x7d\x7d\n" ++
        (res ++ "\n\x7b\x7b end \x7d\x7d\n"))) := by rfl
  rw [h]
  simp only [guardOpen, guardClose, String.append_assoc]
  rfl

theorem Sprintf_pdbTempSpec_flat (L F C : String) :
    Sprintf pdbTempSpec [L, F, C] =
      "\nspec:\n  \x7b\x7b with .Values." ++ (L ++ (".minAvailable -\x7d\x7d\n  minAvailable: \x7b\x7b . \x7d\x7d\n  \x7b\x7b end -\x7d\x7d\n  \x7b\x7b with .Values." ++ (L ++ (".maxUnavailable -\x7d\x7d\n  maxUnavailable: \x7b\x7b . \x7d\x7d\n  \x7b\x7b end -\x7d\x7d\n  selector:\n" ++ (F ++ ("\n    \x7b\x7b- include \"" ++ (C ++ ".selectorLabels\" . | nindent 6 \x7d\x7d"))))))) := by
  rfl

theorem Sprintf_pdbTempSpec (L F C : String) :
    Sprintf pdbTempSpec [L, F, C] = specStanza L F C := by
  rw [Sprintf_pdbTempSpec_flat]
  simp only [specStanza, withBlock, includeRef, String.append_assoc]
  rfl

theorem mapGet_self (k : String) (v : Value) (rest : Values) :
    mapGet ((k, v) :: rest) k = some v := by
  simp [mapGet]

theorem setOpt_fresh (L k : String) (a : Option IntOrString) :
    setOpt [] L k a = .ok [(L, .map [(k, .str (thresholdText a))])] := by
  rcases a with _ | a | a <;>
    simp [setOpt, Values.Add, mapGet, mapSet, thresholdText, IntOrString.String]

theorem setOpt_second (L k1 k2 : String) (v : Value) (a : Option IntOrString) (h : k1 ≠ k2) :
    setOpt [(L, .map [(k1, v)])] L k2 a =
      .ok [(L, .map [(k1, v), (k2, .str (thresholdText a))])] := by
  rcases a with _ | a | a <;>
    simp [setOpt, Values.Add, mapGet, mapSet, thresholdText, IntOrString.String, h]

theorem add_third (L k1 k2 k3 : String) (v1 v2 v : Value) (h1 : k1 ≠ k3) (h2 : k2 ≠ k3) :
    Values.Add [(L, .map [(k1, v1), (k2, v2)])] v L [k3] =
      .ok (none, [(L, .map [(k1, v1), (k2, v2), (k3, v)])]) := by
  simp [Values.Add, mapGet, mapSet, h1, h2]

/-- What Process returns for an object of the handled kind that decodes and whose preamble
renders. -/
theorem Process_handled (env : Env) (appMeta : AppMetadata) (obj : Unstructured)
    (pdb : PodDisruptionBudget) (objMeta : String)
    (hg : obj.GroupVersionKind = pdbGVC)
    (hd : env.FromUnstructured obj.Object = .ok pdb)
    (hm : env.ProcessObjMeta appMeta obj = .ok objMeta) :
    Process env appMeta obj =
      (true,
       some { name := appMeta.TrimName obj.GetName
              data := Docf pdbWrapperSpec [logicalName appMeta obj,
                objMeta ++ Sprintf pdbTempSpec [logicalName appMeta obj,
                  selectorFragment env pdb, appMeta.ChartName]]
              values := valuesOf (logicalName appMeta obj)
                (thresholdText pdb.Spec.MaxUnavailable) (thresholdText pdb.Spec.MinAvailable) },
       none) := by
  simp only [Process, hg, hd, hm, setOpt_fresh, ne_eq, not_true_eq_false, if_false]
  rw [setOpt_second _ _ _ _ _ (by decide)]
  simp only [add_third _ _ _ _ _ _ _ (show "maxUnavailable" ≠ "enabled" by decide)
    (show "minAvailable" ≠ "enabled" by decide)]
  rfl

/-- A returned template comes from the handled kind, a successful decode and a rendered
preamble. -/
theorem Process_template_inv (env : Env) (appMeta : AppMetadata) (obj : Unstructured)
    (t : result) (h : (Process env appMeta obj).2.1 = some t) :
    ∃ pdb objMeta, obj.GroupVersionKind = pdbGVC ∧
      env.FromUnstructured obj.Object = .ok pdb ∧
      env.ProcessObjMeta appMeta obj = .ok objMeta := by
  by_cases hg : obj.GroupVersionKind = pdbGVC
  · cases hd : env.FromUnstructured obj.Object with
    | error e => simp [Process, hg, hd] at h
    | ok pdb =>
      cases hm : env.ProcessObjMeta appMeta obj with
      | error e => simp [Process, hg, hd, hm] at h
      | ok objMeta => exact ⟨pdb, objMeta, hg, rfl, rfl⟩
  · simp [Process, hg] at h

/-- The template of a successful run, given the decoded policy and the preamble. -/
theorem Process_template_eq (env : Env) (appMeta : AppMetadata) (obj : Unstructured)
    (t : result) (pdb : PodDisruptionBudget) (objMeta : String)
    (h : (Process env appMeta obj).2.1 = some t)
    (hd : env.FromUnstructured obj.Object = .ok pdb)
    (hm : env.ProcessObjMeta appMeta obj = .ok objMeta) :
    t = { name := appMeta.TrimName obj.GetName
          data := Docf pdbWrapperSpec [logicalName appMeta obj,
            objMeta ++ Sprintf pdbTempSpec [logicalName appMeta obj,
              selectorFragment env pdb, appMeta.ChartName]]
          values := valuesOf (logicalName appMeta obj)
            (thresholdText pdb.Spec.MaxUnavailable) (thresholdText pdb.Spec.MinAvailable) } := by
  obtain ⟨pdb1, objMeta1, hg, hd1, hm1⟩ := Process_template_inv env appMeta obj t h
  rw [Process_handled env appMeta obj pdb objMeta hg hd hm] at h
  exact (Option.some.inj h).symm

/-! ## The properties -/

/-- C1: Process reports processed=true exactly for objects whose group/version/kind is
(policy, v1, PodDisruptionBudget); for any other triple it returns processed=false with a
nil template and a nil error. -/
theorem Process_processed_iff_kind (env : Env) (appMeta : AppMetadata) (obj : Unstructured) :
    ((Process env appMeta obj).1 = true ↔
      obj.GroupVersionKind =
        { Group := "policy", Version := "v1", Kind := "PodDisruptionBudget" }) ∧
    (obj.GroupVersionKind ≠
        { Group := "policy", Version := "v1", Kind := "PodDisruptionBudget" } →
      Process env appMeta obj = (false, none, none)) := by
  have hk : ({ Group := "policy", Version := "v1", Kind := "PodDisruptionBudget" } :
      GroupVersionKind) = pdbGVC := rfl
  rw [hk]
  by_cases hg : obj.GroupVersionKind = pdbGVC
  · refine ⟨⟨fun _ => hg, fun _ => ?_⟩, fun hne => absurd hg hne⟩
    simp only [Process, hg, ne_eq, not_true_eq_false, if_false]
    cases env.FromUnstructured obj.Object with
    | error e => rfl
    | ok pdb =>
      cases env.ProcessObjMeta appMeta obj with
      | error e => rfl
      | ok objMeta =>
        simp only [setOpt_fresh]
        rw [setOpt_second _ _ _ _ _ (by decide)]
        simp only [add_third _ _ _ _ _ _ _ (show "maxUnavailable" ≠ "enabled" by decide)
          (show "minAvailable" ≠ "enabled" by decide)]
  · refine ⟨⟨fun h => ?_, fun h => absurd h hg⟩, fun _ => ?_⟩
    · simp [Process, hg] at h
    · simp [Process, hg]

/-- C1, on the examples: a Service is declined without error, a PodDisruptionBudget is
processed. -/
theorem Process_processed_iff_kind_witness :
    Process exampleEnv exampleMeta exampleService = (false, none, none) ∧
    (Process exampleEnv exampleMeta examplePdb).1 = true :=
  ⟨(Process_processed_iff_kind exampleEnv exampleMeta exampleService).2 (by decide),
   (Process_processed_iff_kind exampleEnv exampleMeta examplePdb).1.2 (by decide)⟩

/-- C2: the values tree of a handled PodDisruptionBudget is exactly
`L: (maxUnavailable: s_max, minAvailable: s_min, enabled: true)`, with `L` the lower camel
case of the trimmed name and each `s` the empty string, the decimal count or the string of
the threshold. -/
theorem Process_values_tree (env : Env) (appMeta : AppMetadata) (obj : Unstructured)
    (t : result) (pdb : PodDisruptionBudget)
    (h : (Process env appMeta obj).2.1 = some t)
    (hd : env.FromUnstructured obj.Object = .ok pdb) :
    t.Values =
      [(ToLowerCamel (appMeta.TrimName obj.GetName),
        .map [("maxUnavailable", .str (thresholdText pdb.Spec.MaxUnavailable)),
              ("minAvailable", .str (thresholdText pdb.Spec.MinAvailable)),
              ("enabled", .bool true)])] ∧
    thresholdText none = "" ∧
    (∀ n : Int, thresholdText (some (.int n)) = toString n) ∧
    (∀ s : String, thresholdText (some (.str s)) = s) := by
  obtain ⟨pdb1, objMeta, hg, hd1, hm⟩ := Process_template_inv env appMeta obj t h
  rw [Process_template_eq env appMeta obj t pdb objMeta h hd hm]
  exact ⟨rfl, rfl, fun _ => rfl, fun _ => rfl⟩

/-- C2, on the end-to-end example: the object `my-app-pdb` with minAvailable 2 and the trimmed
part `my-app-` gives the tree `pdb: (maxUnavailable: "", minAvailable: "2", enabled: true)`. -/
theorem Process_values_tree_witness :
    (Process exampleEnv exampleMeta examplePdb).2.1 = some exampleResult ∧
    exampleResult.Values =
      [("pdb", .map [("maxUnavailable", .str ""), ("minAvailable", .str "2"),
                     ("enabled", .bool true)])] :=
  ⟨rfl, (Process_values_tree exampleEnv exampleMeta examplePdb exampleResult examplePolicy
    rfl rfl).1⟩

/-- C3 as stated fails: for the object `my-app-my-pdb` the file is `my-pdb.yaml`, while the
Logical Name, which roots the values tree, is `myPdb`. -/
theorem Filename_logicalName_counterexample :
    Process exampleEnv exampleMeta hyphenPdb = (true, some hyphenResult, none) ∧
    hyphenResult.Filename = "my-pdb.yaml" ∧
    logicalName exampleMeta hyphenPdb = "myPdb" ∧
    mapKeys hyphenResult.Values = ["myPdb"] ∧
    hyphenResult.Filename ≠ logicalName exampleMeta hyphenPdb ++ ".yaml" := by
  refine ⟨rfl, rfl, rfl, rfl, ?_⟩
  decide

/-- C3, amended: the file name is the trimmed resource name, before the conversion to camel
case, followed by `.yaml`; the values tree is rooted at the camel-case form of that same
trimmed name. -/
theorem Filename_trimmed_name (env : Env) (appMeta : AppMetadata) (obj : Unstructured)
    (t : result) (h : (Process env appMeta obj).2.1 = some t) :
    t.Filename = appMeta.TrimName obj.GetName ++ ".yaml" ∧
    mapKeys t.Values = [ToLowerCamel (appMeta.TrimName obj.GetName)] := by
  obtain ⟨pdb, objMeta, hg, hd, hm⟩ := Process_template_inv env appMeta obj t h
  rw [Process_template_eq env appMeta obj t pdb objMeta h hd hm]
  exact ⟨rfl, rfl⟩

/-- C3, amended, on the object `my-app-my-pdb`. -/
theorem Filename_trimmed_name_witness :
    (Process exampleEnv exampleMeta hyphenPdb).2.1 = some hyphenResult ∧
    hyphenResult.Filename = "my-pdb" ++ ".yaml" ∧
    mapKeys hyphenResult.Values = [ToLowerCamel "my-pdb"] :=
  ⟨rfl, Filename_trimmed_name exampleEnv exampleMeta hyphenPdb hyphenResult rfl⟩

/-- C4: in the generated text the preamble is followed by the `spec:` stanza, which is made
of, in this order, the `with` block of minAvailable holding its line, the `with` block of
maxUnavailable holding its line, the `selector:` line, the selector fragment and the
inclusion reference of the chart. -/
theorem Process_spec_stanza (env : Env) (appMeta : AppMetadata) (obj : Unstructured)
    (t : result) (pdb : PodDisruptionBudget) (objMeta : String)
    (h : (Process env appMeta obj).2.1 = some t)
    (hd : env.FromUnstructured obj.Object = .ok pdb)
    (hm : env.ProcessObjMeta appMeta obj = .ok objMeta) :
    t.data = guardOpen (logicalName appMeta obj) ++ ("\n" ++ (objMeta ++
      (specStanza (logicalName appMeta obj) (selectorFragment env pdb) appMeta.ChartName ++
        ("\n" ++ (guardClose ++ "\n"))))) ∧
    specStanza (logicalName appMeta obj) (selectorFragment env pdb) appMeta.ChartName =
      "\nspec:\n  " ++
      ("\x7b\x7b with .Values." ++ (logicalName appMeta obj ++ (".minAvailable -\x7d\x7d" ++
      ("\n  minAvailable: \x7b\x7b . \x7d\x7d\n  \x7b\x7b end -\x7d\x7d" ++
      ("\n  " ++
      ("\x7b\x7b with .Values." ++ (logicalName appMeta obj ++ (".maxUnavailable -\x7d\x7d" ++
      ("\n  maxUnavailable: \x7b\x7b . \x7d\x7d\n  \x7b\x7b end -\x7d\x7d" ++
      ("\n  selector:\n" ++
      (selectorFragment env pdb ++
      ("\n    " ++
      ("\x7b\x7b- include \"" ++ (appMeta.ChartName ++
      ".selectorLabels\" . | nindent 6 \x7d\x7d")))))))))))))) := by
  constructor
  · rw [Process_template_eq env appMeta obj t pdb objMeta h hd hm]
    simp only [Docf_pdbWrapperSpec, Sprintf_pdbTempSpec, String.append_assoc]
  · rw [← Sprintf_pdbTempSpec, Sprintf_pdbTempSpec_flat]
    rfl

/-- C4, on the end-to-end example. -/
theorem Process_spec_stanza_witness :
    (Process exampleEnv exampleMeta examplePdb).2.1 = some exampleResult ∧
    exampleResult.data = guardOpen (logicalName exampleMeta examplePdb) ++ ("\n" ++
      (examplePreamble ++
        (specStanza (logicalName exampleMeta examplePdb)
            (selectorFragment exampleEnv examplePolicy) exampleMeta.ChartName ++
          ("\n" ++ (guardClose ++ "\n"))))) :=
  ⟨rfl, (Process_spec_stanza exampleEnv exampleMeta examplePdb exampleResult examplePolicy
    examplePreamble rfl rfl rfl).1⟩

/-- C5: the generated text is the opening guard on `.Values.L.enabled`, then the preamble
immediately followed by the spec body, then the closing `end`; each is on lines of its
own, and nothing of the preamble or body is outside the guard. -/
theorem Process_text_guarded (env : Env) (appMeta : AppMetadata) (obj : Unstructured)
    (t : result) (pdb : PodDisruptionBudget) (objMeta : String)
    (h : (Process env appMeta obj).2.1 = some t)
    (hd : env.FromUnstructured obj.Object = .ok pdb)
    (hm : env.ProcessObjMeta appMeta obj = .ok objMeta) :
    t.data =
      "\x7b\x7b if .Values." ++ (logicalName appMeta obj ++ (".enabled \x7d\x7d" ++ ("\n" ++
        ((objMeta ++ Sprintf pdbTempSpec
            [logicalName appMeta obj, selectorFragment env pdb, appMeta.ChartName]) ++
          ("\n" ++ ("\x7b\x7b end \x7d\x7d" ++ "\n")))))) := by
  rw [Process_template_eq env appMeta obj t pdb objMeta h hd hm]
  simp only [Docf_pdbWrapperSpec, guardOpen, guardClose, String.append_assoc]

/-- C5, on the end-to-end example. -/
theorem Process_text_guarded_witness :
    (Process exampleEnv exampleMeta examplePdb).2.1 = some exampleResult ∧
    exampleResult.data =
      "\x7b\x7b if .Values." ++ (logicalName exampleMeta examplePdb ++
        (".enabled \x7d\x7d" ++ ("\n" ++
        ((examplePreamble ++ Sprintf pdbTempSpec
            [logicalName exampleMeta examplePdb, selectorFragment exampleEnv examplePolicy,
             exampleMeta.ChartName]) ++
          ("\n" ++ ("\x7b\x7b end \x7d\x7d" ++ "\n")))))) :=
  ⟨rfl, Process_text_guarded exampleEnv exampleMeta examplePdb exampleResult examplePolicy
    examplePreamble rfl rfl rfl⟩

/-- C7: when an object of the handled kind cannot be decoded, Process returns
processed=true, no template, and an error that wraps the decoder's error. -/
theorem Process_decode_error (env : Env) (appMeta : AppMetadata) (obj : Unstructured)
    (e : GoError)
    (hg : obj.GroupVersionKind =
      { Group := "policy", Version := "v1", Kind := "PodDisruptionBudget" })
    (hd : env.FromUnstructured obj.Object = .error e) :
    Process env appMeta obj = (true, none, some (Errorf_w e ": unable to cast to pdb")) ∧
    (Errorf_w e ": unable to cast to pdb").Unwrap = some e ∧
    (Errorf_w e ": unable to cast to pdb").Error = e.Error ++ ": unable to cast to pdb" := by
  have hg1 : obj.GroupVersionKind = pdbGVC := hg
  exact ⟨by simp [Process, hg1, hd], rfl, rfl⟩

/-- C7, on the examples: a minAvailable of the wrong type. -/
theorem Process_decode_error_witness :
    exampleEnv.FromUnstructured malformedPdb.Object =
      .error (.base "cannot restore IntOrString from the value") ∧
    Process exampleEnv exampleMeta malformedPdb =
      (true, none, some (Errorf_w (.base "cannot restore IntOrString from the value")
        ": unable to cast to pdb")) :=
  ⟨rfl, (Process_decode_error exampleEnv exampleMeta malformedPdb _ (by decide) rfl).1⟩

/-- C9: when decoding and the preamble succeed, Process returns a template and no error:
for every root key `L`, the empty one included, none of the three insertions into the
initially empty tree meets a leaf at `L`, and each succeeds. -/
theorem Process_no_conflict (env : Env) (appMeta : AppMetadata) (obj : Unstructured)
    (pdb : PodDisruptionBudget) (objMeta : String)
    (hg : obj.GroupVersionKind =
      { Group := "policy", Version := "v1", Kind := "PodDisruptionBudget" })
    (hd : env.FromUnstructured obj.Object = .ok pdb)
    (hm : env.ProcessObjMeta appMeta obj = .ok objMeta) :
    ((Process env appMeta obj).1 = true ∧
      (Process env appMeta obj).2.1.isSome = true ∧
      (Process env appMeta obj).2.2 = none) ∧
    ∀ (L sMax sMin : String),
      Values.Add [] (.str sMax) L ["maxUnavailable"] =
        .ok (none, [(L, .map [("maxUnavailable", .str sMax)])]) ∧
      Values.Add [(L, .map [("maxUnavailable", .str sMax)])] (.str sMin) L ["minAvailable"] =
        .ok (none, [(L, .map [("maxUnavailable", .str sMax), ("minAvailable", .str sMin)])]) ∧
      Values.Add [(L, .map [("maxUnavailable", .str sMax), ("minAvailable", .str sMin)])]
          (.bool true) L ["enabled"] =
        .ok (none, [(L, .map [("maxUnavailable", .str sMax), ("minAvailable", .str sMin),
                              ("enabled", .bool true)])]) := by
  refine ⟨?_, fun L sMax sMin => ⟨?_, ?_, ?_⟩⟩
  · rw [Process_handled env appMeta obj pdb objMeta hg hd hm]
    exact ⟨rfl, rfl, rfl⟩
  · simp [Values.Add, mapGet, mapSet]
  · simp [Values.Add, mapGet, mapSet]
  · simp [Values.Add, mapGet, mapSet]

/-- C9, on an object whose Logical Name is the empty string. -/
theorem Process_no_conflict_witness :
    logicalName exampleMeta namelessPdb = "" ∧
    (Process exampleEnv exampleMeta namelessPdb).1 = true ∧
    (Process exampleEnv exampleMeta namelessPdb).2.1.isSome = true ∧
    (Process exampleEnv exampleMeta namelessPdb).2.2 = none :=
  ⟨rfl, (Process_no_conflict exampleEnv exampleMeta namelessPdb _ _ (by decide) rfl rfl).1⟩

/-! ## The selector fragment -/

theorem splitChar_ne_nil (sep : Char) (s : List Char) : splitChar sep s ≠ [] := by
  cases s with
  | nil => simp [splitChar]
  | cons c rest =>
    unfold splitChar
    split
    · simp
    · split <;> simp

theorem joinChar_cons (sep : Char) (l : List Char) (ls : List (List Char)) :
    joinChar sep (l :: ls) = l ++ ls.flatMap (fun x => sep :: x) := by
  induction ls generalizing l with
  | nil => simp [joinChar]
  | cons m ms ih =>
    show l ++ sep :: joinChar sep (m :: ms) = _
    rw [ih]
    simp

/-- The inserted indentation, line by line: the text after a split at the newlines. -/
theorem flatMap_indent_eq (pad : List Char) (y : List Char) :
    ∀ l ls, splitChar '\n' y = l :: ls →
      y.flatMap (fun c => if c = '\n' then '\n' :: pad else [c]) =
        l ++ ls.flatMap (fun x => '\n' :: (pad ++ x)) := by
  induction y with
  | nil =>
    intro l ls h
    simp [splitChar] at h
    obtain ⟨rfl, rfl⟩ := h
    simp
  | cons c rest ih =>
    intro l ls h
    obtain ⟨l1, ls1, h1⟩ : ∃ l1 ls1, splitChar '\n' rest = l1 :: ls1 := by
      cases hs : splitChar '\n' rest with
      | nil => exact absurd hs (splitChar_ne_nil _ _)
      | cons a b => exact ⟨a, b, rfl⟩
    have ih1 := ih l1 ls1 h1
    by_cases hc : c = '\n'
    · subst hc
      simp only [splitChar, if_true, h1] at h
      obtain ⟨rfl, rfl⟩ := List.cons.inj h
      simp [List.flatMap_cons, ih1]
    · simp only [splitChar, hc, if_false, h1] at h
      obtain ⟨rfl, rfl⟩ := List.cons.inj h
      simp [List.flatMap_cons, hc, ih1]

theorem Indent_data (y : String) (n : Nat) :
    (Indent y n).data = indentedLines n y.data := by
  obtain ⟨l, ls, h⟩ : ∃ l ls, splitChar '\n' y.data = l :: ls := by
    cases hs : splitChar '\n' y.data with
    | nil => exact absurd hs (splitChar_ne_nil _ _)
    | cons a b => exact ⟨a, b, rfl⟩
  simp only [Indent, indentedLines, h, List.map_cons, joinChar_cons,
    flatMap_indent_eq _ _ l ls h]
  simp [List.flatMap, List.map_map, Function.comp_def]

theorem dropRightWhile_append_all (p : Char → Bool) (s w : List Char)
    (hw : ∀ c ∈ w, p c = true) : dropRightWhile p (s ++ w) = dropRightWhile p s := by
  induction w using List.reverseRecOn with
  | nil => simp
  | append_singleton w c ih =>
    have hc : p c = true := hw c (by simp)
    have hw1 : ∀ x ∈ w, p x = true := fun x hx => hw x (by simp [hx])
    rw [← List.append_assoc]
    show List.rdropWhile p (s ++ w ++ [c]) = _
    rw [List.rdropWhile_concat_pos _ _ _ hc]
    exact ih hw1

theorem flatMap_indent_all_trim (pad w : List Char) (hp : ∀ c ∈ pad, trimChar c = true)
    (hw : ∀ c ∈ w, trimChar c = true) :
    ∀ c ∈ w.flatMap (fun c => if c = '\n' then '\n' :: pad else [c]), trimChar c = true := by
  intro c hc
  rw [List.mem_flatMap] at hc
  obtain ⟨x, hx, hcx⟩ := hc
  by_cases hn : x = '\n'
  · simp only [hn, if_true, List.mem_cons] at hcx
    rcases hcx with rfl | hcx
    · rfl
    · exact hp c hcx
  · simp only [hn, if_false, List.mem_singleton] at hcx
    subst hcx
    exact hw c hx

/-- Trimming the indented text is indenting the trimmed text, unless nothing is left. -/
theorem dropRightWhile_indent (n : Nat) (y : List Char) :
    dropRightWhile trimChar
        (List.replicate n ' ' ++ y.flatMap (fun c => if c = '\n' then '\n' :: List.replicate n ' ' else [c])) =
      if dropRightWhile trimChar y = [] then []
      else List.replicate n ' ' ++
        (dropRightWhile trimChar y).flatMap
          (fun c => if c = '\n' then '\n' :: List.replicate n ' ' else [c]) := by
  have hpad : ∀ c ∈ List.replicate n ' ', trimChar c = true := by
    intro c hc
    rw [List.eq_of_mem_replicate hc]
    rfl
  induction y using List.reverseRecOn with
  | nil =>
    have h := dropRightWhile_append_all trimChar [] (List.replicate n ' ') hpad
    simp only [List.nil_append] at h
    simp only [List.flatMap_nil, List.append_nil, h]
    rfl
  | append_singleton ys c ih =>
    by_cases hc : trimChar c = true
    · have h1 : dropRightWhile trimChar (ys ++ [c]) = dropRightWhile trimChar ys :=
        dropRightWhile_append_all trimChar ys [c] (by simpa using hc)
      rw [h1, ← ih, List.flatMap_append, ← List.append_assoc]
      exact dropRightWhile_append_all trimChar _ _
        (flatMap_indent_all_trim _ [c] hpad (by simpa using hc))
    · have hn : c ≠ '\n' := by
        rintro rfl
        exact hc rfl
      have h1 : dropRightWhile trimChar (ys ++ [c]) = ys ++ [c] :=
        List.rdropWhile_concat_neg _ _ _ hc
      rw [h1]
      simp only [List.append_eq_nil, List.cons_ne_self, and_false, if_false, reduceCtorEq]
      rw [List.flatMap_append]
      simp only [List.flatMap_cons, hn, if_false, List.flatMap_nil, List.append_nil]
      rw [← List.append_assoc]
      exact List.rdropWhile_concat_neg _ _ _ hc

theorem TrimRight_data (s : String) :
    (TrimRight s "\n ").data = dropRightWhile trimChar s.data := by
  have h : (fun c => "\n ".data.contains c) = trimChar := by
    funext c
    by_cases h1 : c = '\n'
    · subst h1
      rfl
    · by_cases h2 : c = ' '
      · subst h2
        rfl
      · have e1 : (c == '\n') = false := by simpa using h1
        have e2 : (c == ' ') = false := by simpa using h2
        simp [trimChar, List.contains, List.elem, e1, e2, h1, h2]
  simp only [TrimRight, h]

theorem dropRightWhile_getLast (p : Char → Bool) (s : List Char) (c : Char)
    (h : (dropRightWhile p s).getLast? = some c) : p c = false := by
  have hne : List.rdropWhile p s ≠ [] := by
    intro h0
    have : dropRightWhile p s = [] := h0
    rw [this] at h
    simp at h
  have h1 := List.rdropWhile_last_not p s hne
  have h2 : (dropRightWhile p s).getLast? = some ((List.rdropWhile p s).getLast hne) :=
    List.getLast?_eq_getLast _ hne
  rw [h2] at h
  rw [← Option.some.inj h]
  simpa using h1

/-- C8: the selector fragment is the serialization of the selector with four spaces in
front of every line and the trailing newlines and spaces removed (equally: the trimmed
serialization with four spaces in front of every line, or nothing when nothing is left);
it does not end in a newline or a space, and it stands right beneath the `selector:` line
of the generated text. -/
theorem selector_fragment_indented (env : Env) (appMeta : AppMetadata) (obj : Unstructured)
    (t : result) (pdb : PodDisruptionBudget) (objMeta : String)
    (h : (Process env appMeta obj).2.1 = some t)
    (hd : env.FromUnstructured obj.Object = .ok pdb)
    (hm : env.ProcessObjMeta appMeta obj = .ok objMeta) :
    (selectorFragment env pdb).data =
      dropRightWhile trimChar (indentedLines 4 (env.Marshal pdb.Spec.Selector).data) ∧
    (selectorFragment env pdb).data =
      (if dropRightWhile trimChar (env.Marshal pdb.Spec.Selector).data = [] then []
       else indentedLines 4 (dropRightWhile trimChar (env.Marshal pdb.Spec.Selector).data)) ∧
    (∀ c, (selectorFragment env pdb).data.getLast? = some c → c ≠ '\n' ∧ c ≠ ' ') ∧
    (∃ before after, t.data =
      before ++ ("\n  selector:\n" ++ (selectorFragment env pdb ++ ("\n" ++ after)))) := by
  have hF : (selectorFragment env pdb).data =
      dropRightWhile trimChar (Indent (env.Marshal pdb.Spec.Selector) 4).data := by
    simp only [selectorFragment, TrimRight_data]
  refine ⟨?_, ?_, ?_, ?_⟩
  · rw [hF, Indent_data]
  · rw [hF]
    have h2 := dropRightWhile_indent 4 (env.Marshal pdb.Spec.Selector).data
    have h3 := Indent_data (String.mk (dropRightWhile trimChar (env.Marshal pdb.Spec.Selector).data)) 4
    simp only [Indent] at h3
    rw [← h3]
    exact h2
  · intro c hc
    rw [hF] at hc
    have := dropRightWhile_getLast trimChar _ c hc
    simp only [trimChar, Bool.or_eq_false_iff, decide_eq_false_iff_not] at this
    exact this
  · have h4 := (Process_template_eq env appMeta obj t pdb objMeta h hd hm)
    refine ⟨guardOpen (logicalName appMeta obj) ++ ("\n" ++ (objMeta ++
      ("\nspec:\n  " ++ (withBlock (logicalName appMeta obj) "minAvailable" ++ ("\n  " ++
        withBlock (logicalName appMeta obj) "maxUnavailable"))))),
      "    " ++ (includeRef appMeta.ChartName ++ ("\n" ++ (guardClose ++ "\n"))), ?_⟩
    rw [h4]
    simp only [Docf_pdbWrapperSpec, Sprintf_pdbTempSpec, specStanza, String.append_assoc]
    rfl

/-- C8, on the end-to-end example: the fragment is the two lines of the selector, each
behind four more spaces, without the final newline. -/
theorem selector_fragment_indented_witness :
    (Process exampleEnv exampleMeta examplePdb).2.1 = some exampleResult ∧
    selectorFragment exampleEnv examplePolicy = "    matchLabels:\n      app: web" ∧
    (selectorFragment exampleEnv examplePolicy).data =
      dropRightWhile trimChar
        (indentedLines 4 (exampleEnv.Marshal examplePolicy.Spec.Selector).data) :=
  ⟨rfl, rfl, (selector_fragment_indented exampleEnv exampleMeta examplePdb exampleResult
    examplePolicy examplePreamble rfl rfl rfl).1⟩

/-! ## Lexing the generated text -/

theorem foldr_pushText_action (s b : List Char) (l r : Bool) (ts : List TplToken)
    (hs : s ≠ []) :
    s.foldr pushText (.action b l r :: ts) = .text s :: .action b l r :: ts := by
  induction s with
  | nil => exact absurd rfl hs
  | cons c s ih =>
    cases s with
    | nil => rfl
    | cons c2 s2 =>
      have := ih (by simp)
      simp only [List.foldr] at this ⊢
      rw [this]
      rfl

theorem noOpenDelim_append (a b : List Char) (ha : noOpenDelim a = true)
    (hb : noOpenDelim b = true)
    (hab : a.getLast? ≠ some '\x7b' ∨ b.head? ≠ some '\x7b') :
    noOpenDelim (a ++ b) = true := by
  induction a with
  | nil => exact hb
  | cons c a ih =>
    cases a with
    | nil =>
      cases b with
      | nil => rfl
      | cons d b2 =>
        have hcd : ¬ (c = '\x7b' ∧ d = '\x7b') := by
          rintro ⟨rfl, rfl⟩
          rcases hab with h | h
          · exact h rfl
          · exact h rfl
        simp only [List.cons_append, List.nil_append, noOpenDelim, Bool.and_eq_true,
          Bool.not_eq_true', Bool.and_eq_false_iff, decide_eq_false_iff_not]
        exact ⟨not_and_or.1 hcd, hb⟩
    | cons d a2 =>
      have h1 := ha
      simp only [noOpenDelim, Bool.and_eq_true] at h1
      have hab2 : (d :: a2).getLast? ≠ some '\x7b' ∨ b.head? ≠ some '\x7b' := by
        rcases hab with h | h
        · left
          simpa [List.getLast?_cons_cons] using h
        · exact Or.inr h
      have ih1 := ih h1.2 hab2
      simp only [List.cons_append, noOpenDelim, Bool.and_eq_true]
      exact ⟨h1.1, ih1⟩

theorem plainText_wrap (a f b : List Char) (hf : noOpenDelim f = true)
    (ha : plainText a = true) (hb : plainText b = true) (hb1 : b.head? ≠ some '\x7b')
    (hb0 : b ≠ []) :
    plainText (a ++ (f ++ b)) = true := by
  simp only [plainText, Bool.and_eq_true, bne_iff_ne, ne_eq] at ha hb ⊢
  constructor
  · exact noOpenDelim_append a (f ++ b) ha.1
      (noOpenDelim_append f b hf hb.1 (Or.inr hb1)) (Or.inl ha.2)
  · rw [← List.append_assoc, List.getLast?_append_of_ne_nil _ hb0]
    exact hb.2

theorem lex_text (s r : List Char) (hs : plainText s = true) :
    lexTemplate false 0 (s ++ r) = s.foldr pushText (lexTemplate false 0 r) := by
  induction s with
  | nil => rfl
  | cons c s ih =>
    have h0 := hs
    simp only [plainText, Bool.and_eq_true, bne_iff_ne, ne_eq] at h0
    cases s with
    | nil =>
      have hc : c ≠ '\x7b' := by
        intro h
        exact h0.2 (by simp [h])
      have hc2 : ('\x7b' == c) = false := by
        simp only [beq_eq_false_iff_ne, ne_eq]
        exact fun h => hc h.symm
      simp only [List.cons_append, List.nil_append, lexTemplate, String.data, List.isPrefixOf,
        hc2, Bool.false_and, Bool.false_eq_true, if_false, List.foldr, List.append_eq]
    | cons d s2 =>
      have h1 := h0.1
      simp only [noOpenDelim, Bool.and_eq_true, Bool.not_eq_true', Bool.and_eq_false_iff,
        decide_eq_false_iff_not] at h1
      have hs2 : plainText (d :: s2) = true := by
        simp only [plainText, Bool.and_eq_true, bne_iff_ne, ne_eq]
        refine ⟨h1.2, ?_⟩
        have := h0.2
        simpa [List.getLast?_cons_cons] using this
      have ih1 := ih hs2
      have hp : List.isPrefixOf "\x7b\x7b".data (c :: (d :: s2 ++ r)) = false := by
        rcases h1.1 with h | h
        · have hc2 : ('\x7b' == c) = false := by
            simp only [beq_eq_false_iff_ne, ne_eq]
            exact fun e => h e.symm
          simp [List.isPrefixOf, hc2]
        · have hd2 : ('\x7b' == d) = false := by
            simp only [beq_eq_false_iff_ne, ne_eq]
            exact fun e => h e.symm
          simp [List.isPrefixOf, hd2]
      rw [List.cons_append, lexTemplate, hp]
      simp only [Bool.false_eq_true, if_false]
      rw [ih1]
      rfl

theorem no_trim_close_plain (b r : List Char) (hb : ∀ x ∈ b, x ≠ '\x7d')
    (hl : b.getLast? ≠ some '-') :
    List.isPrefixOf "-\x7d\x7d".data (b ++ '\x7d' :: '\x7d' :: r) = false := by
  match b, hb, hl with
  | [], _, _ => rfl
  | [x], _, hl =>
    have hx : x ≠ '-' := by
      intro h
      exact hl (by simp [h])
    have hx2 : ('-' == x) = false := by
      simp only [beq_eq_false_iff_ne, ne_eq]
      exact fun h => hx h.symm
    simp [List.isPrefixOf, hx2]
  | x :: y :: b2, hb2, _ =>
    have hy : y ≠ '\x7d' := hb2 y (by simp)
    have hy2 : ('\x7d' == y) = false := by
      simp only [beq_eq_false_iff_ne, ne_eq]
      exact fun h => hy h.symm
    simp [List.isPrefixOf, hy2]

theorem no_trim_close_trim (b r : List Char) (hb : ∀ x ∈ b, x ≠ '\x7d') :
    List.isPrefixOf "-\x7d\x7d".data (b ++ ' ' :: '-' :: '\x7d' :: '\x7d' :: r) = false := by
  match b, hb with
  | [], _ => rfl
  | [x], _ => simp [List.isPrefixOf]
  | x :: y :: b2, hb2 =>
    have hy : y ≠ '\x7d' := hb2 y (by simp)
    have hy2 : ('\x7d' == y) = false := by
      simp only [beq_eq_false_iff_ne, ne_eq]
      exact fun h => hy h.symm
    simp [List.isPrefixOf, hy2]

theorem lex_action_plain (b r : List Char) (hb : ∀ x ∈ b, x ≠ '\x7d')
    (hl : b.getLast? ≠ some '-') :
    lexTemplate true 0 (b ++ '\x7d' :: '\x7d' :: r) =
      .action b false false :: lexTemplate false 0 r := by
  induction b with
  | nil => simp [lexTemplate, tplSpace, List.isPrefixOf]
  | cons c b ih =>
    have hc : c ≠ '\x7d' := hb c (by simp)
    have hb1 : ∀ x ∈ b, x ≠ '\x7d' := fun x hx => hb x (by simp [hx])
    have hc2 : ('\x7d' == c) = false := by
      simp only [beq_eq_false_iff_ne, ne_eq]
      exact fun h => hc h.symm
    have hl1 : b.getLast? ≠ some '-' := by
      cases b with
      | nil => simp
      | cons y b2 => simpa [List.getLast?_cons_cons] using hl
    have h3 := no_trim_close_plain b r hb1 hl1
    simp only [List.cons_append, lexTemplate, h3, Bool.and_false, Bool.false_eq_true, if_false,
      String.data, List.isPrefixOf, hc2, Bool.false_and, List.append_eq, ih hb1 hl1, pushAction]

theorem lex_action_trim (b r : List Char) (hb : ∀ x ∈ b, x ≠ '\x7d') :
    lexTemplate true 0 (b ++ ' ' :: '-' :: '\x7d' :: '\x7d' :: r) =
      .action b false true :: lexTemplate false 0 r := by
  induction b with
  | nil => simp [lexTemplate, tplSpace, List.isPrefixOf]
  | cons c b ih =>
    have hc : c ≠ '\x7d' := hb c (by simp)
    have hb1 : ∀ x ∈ b, x ≠ '\x7d' := fun x hx => hb x (by simp [hx])
    have hc2 : ('\x7d' == c) = false := by
      simp only [beq_eq_false_iff_ne, ne_eq]
      exact fun h => hc h.symm
    have h3 := no_trim_close_trim b r hb1
    simp only [List.cons_append, lexTemplate, h3, Bool.and_false, Bool.false_eq_true, if_false,
      String.data, List.isPrefixOf, hc2, Bool.false_and, List.append_eq, ih hb1, pushAction]

theorem lex_open_plain (b : List Char) :
    lexTemplate false 0 ('\x7b' :: '\x7b' :: ' ' :: b) =
      markLeft false (lexTemplate true 0 (' ' :: b)) := by
  simp [lexTemplate, List.isPrefixOf, hasLeftTrimMarker]

theorem lex_open_trim (b : List Char) :
    lexTemplate false 0 ('\x7b' :: '\x7b' :: '-' :: ' ' :: b) =
      markLeft true (lexTemplate true 0 b) := by
  cases b <;> simp [lexTemplate, List.isPrefixOf, hasLeftTrimMarker, tplSpace]

theorem lex_segment_plain (s b r : List Char) (hs : plainText s = true)
    (hb : ∀ x ∈ b, x ≠ '\x7d') (hl : b.getLast? ≠ some '-') (hb0 : b ≠ []) :
    lexTemplate false 0 (s ++ '\x7b' :: '\x7b' :: ' ' :: (b ++ '\x7d' :: '\x7d' :: r)) =
      s.foldr pushText (.action (' ' :: b) false false :: lexTemplate false 0 r) := by
  rw [lex_text s _ hs, lex_open_plain]
  have h := lex_action_plain (' ' :: b) r
    (by
      intro x hx
      rcases List.mem_cons.1 hx with rfl | hx
      · decide
      · exact hb x hx)
    (by
      cases b with
      | nil => exact absurd rfl hb0
      | cons y b2 => simpa [List.getLast?_cons_cons] using hl)
  rw [List.cons_append] at h
  rw [h]
  rfl

theorem lex_segment_rtrim (s b r : List Char) (hs : plainText s = true)
    (hb : ∀ x ∈ b, x ≠ '\x7d') :
    lexTemplate false 0
        (s ++ '\x7b' :: '\x7b' :: ' ' :: (b ++ ' ' :: '-' :: '\x7d' :: '\x7d' :: r)) =
      s.foldr pushText (.action (' ' :: b) false true :: lexTemplate false 0 r) := by
  rw [lex_text s _ hs, lex_open_plain]
  have h := lex_action_trim (' ' :: b) r
    (by
      intro x hx
      rcases List.mem_cons.1 hx with rfl | hx
      · decide
      · exact hb x hx)
  rw [List.cons_append] at h
  rw [h]
  rfl

theorem lex_segment_ltrim (s b r : List Char) (hs : plainText s = true)
    (hb : ∀ x ∈ b, x ≠ '\x7d') (hl : b.getLast? ≠ some '-') :
    lexTemplate false 0 (s ++ '\x7b' :: '\x7b' :: '-' :: ' ' :: (b ++ '\x7d' :: '\x7d' :: r)) =
      s.foldr pushText (.action b true false :: lexTemplate false 0 r) := by
  rw [lex_text s _ hs, lex_open_trim, lex_action_plain b r hb hl]
  rfl

/-! ## Parsing the actions of the generated text -/

theorem identChar_facts (x : Char) (h : identChar x = true) :
    x ≠ '.' ∧ x ≠ '\x7d' ∧ x ≠ '\x7b' ∧ tplSpace x = false ∧ x ≠ '|' ∧ x ≠ '"' := by
  refine ⟨?_, ?_, ?_, ?_, ?_, ?_⟩
  · rintro rfl
    exact absurd h (by decide)
  · rintro rfl
    exact absurd h (by decide)
  · rintro rfl
    exact absurd h (by decide)
  · by_contra hsp
    simp only [tplSpace, Bool.not_eq_false, Bool.or_eq_true, decide_eq_true_eq] at hsp
    rcases hsp with ((rfl | rfl) | rfl) | rfl <;> exact absurd h (by decide)
  · rintro rfl
    exact absurd h (by decide)
  · rintro rfl
    exact absurd h (by decide)

theorem isIdent_all (s : List Char) (h : isIdent s = true) : ∀ x ∈ s, identChar x = true := by
  cases s with
  | nil => simp [isIdent] at h
  | cons c s =>
    simp only [isIdent, Bool.and_eq_true, List.all_eq_true] at h
    exact h.2

theorem tplWords_append (cur s r : List Char) (hs : ∀ x ∈ s, tplSpace x = false) :
    tplWords cur (s ++ r) = tplWords (cur ++ s) r := by
  induction s generalizing cur with
  | nil => simp
  | cons c s ih =>
    have hc : tplSpace c = false := hs c (by simp)
    simp only [List.cons_append, tplWords, hc, Bool.false_eq_true, if_false, List.append_eq]
    rw [ih _ (fun x hx => hs x (by simp [hx]))]
    simp

theorem splitChar_append_sep (sep : Char) (s r : List Char) (hs : ∀ x ∈ s, x ≠ sep) :
    splitChar sep (s ++ sep :: r) = s :: splitChar sep r := by
  induction s with
  | nil => simp [splitChar]
  | cons c s ih =>
    have hc : c ≠ sep := hs c (by simp)
    simp only [List.cons_append, splitChar, hc, if_false, List.append_eq]
    rw [ih (fun x hx => hs x (by simp [hx]))]

theorem splitChar_no_sep (sep : Char) (s : List Char) (hs : ∀ x ∈ s, x ≠ sep) :
    splitChar sep s = [s] := by
  induction s with
  | nil => rfl
  | cons c s ih =>
    have hc : c ≠ sep := hs c (by simp)
    simp only [splitChar, hc, if_false]
    rw [ih (fun x hx => hs x (by simp [hx]))]

theorem parseWord_field (l k : List Char) (hl : isIdent l = true) (hk : isIdent k = true) :
    parseWord (".Values.".data ++ (l ++ '.' :: k)) =
      some (.field ["Values", String.mk l, String.mk k]) := by
  have h1 : splitChar '.' ("Values.".data ++ (l ++ '.' :: k)) = ["Values".data, l, k] := by
    have e : "Values.".data ++ (l ++ '.' :: k) = "Values".data ++ '.' :: (l ++ '.' :: k) := rfl
    rw [e, splitChar_append_sep _ _ _ (by decide),
      splitChar_append_sep _ _ _ (fun x hx => (identChar_facts x (isIdent_all l hl x hx)).1),
      splitChar_no_sep _ _ (fun x hx => (identChar_facts x (isIdent_all k hk x hx)).1)]
  have e2 : ".Values.".data ++ (l ++ '.' :: k) = '.' :: ("Values.".data ++ (l ++ '.' :: k)) := rfl
  rw [e2]
  simp only [parseWord, if_true, h1, List.all_cons, List.all_nil, hl, hk, Bool.and_true,
    List.map_cons, List.map_nil]
  simp [isIdent, identChar]

theorem valuesLit_facts :
    (∀ x ∈ ".Values.".data, tplSpace x = false) ∧ (∀ x ∈ ".Values.".data, x ≠ '\x7d') := by
  decide

theorem fieldWord_facts (l k : List Char) (hl : isIdent l = true) (hk : isIdent k = true) :
    (∀ x ∈ ".Values.".data ++ (l ++ '.' :: k), tplSpace x = false) ∧
    (∀ x ∈ ".Values.".data ++ (l ++ '.' :: k), x ≠ '\x7d') := by
  constructor
  · intro x hx
    rcases List.mem_append.1 hx with h | h
    · exact valuesLit_facts.1 x h
    · rcases List.mem_append.1 h with h | h
      · exact (identChar_facts x (isIdent_all l hl x h)).2.2.2.1
      · rcases List.mem_cons.1 h with rfl | h
        · rfl
        · exact (identChar_facts x (isIdent_all k hk x h)).2.2.2.1
  · intro x hx
    rcases List.mem_append.1 hx with h | h
    · exact valuesLit_facts.2 x h
    · rcases List.mem_append.1 h with h | h
      · exact (identChar_facts x (isIdent_all l hl x h)).2.1
      · rcases List.mem_cons.1 h with rfl | h
        · decide
        · exact (identChar_facts x (isIdent_all k hk x h)).2.1

theorem parsePipeline_field (l k : List Char) (hl : isIdent l = true) (hk : isIdent k = true) :
    parsePipeline [".Values.".data ++ (l ++ '.' :: k)] =
      some [[.field ["Values", String.mk l, String.mk k]]] := by
  have hne : (".Values.".data ++ (l ++ '.' :: k)) ≠ ['|'] := by
    intro h
    have e : ".Values.".data ++ (l ++ '.' :: k) = '.' :: ("Values.".data ++ (l ++ '.' :: k)) :=
      rfl
    rw [e] at h
    exact absurd (List.cons.inj h).1 (by decide)
  simp only [parsePipeline, splitPipe, hne, if_false, List.map_cons, List.map_nil,
    List.isEmpty_cons, Bool.false_eq_true, parseWord_field l k hl hk, allSome]

theorem parseAction_with (l k : List Char) (hl : isIdent l = true) (hk : isIdent k = true) :
    parseAction (' ' :: withBody l k) =
      some (.withNode [[.field ["Values", String.mk l, String.mk k]]]) := by
  show parseAction (' ' :: ("with .Values.".data ++ (l ++ '.' :: k))) = _
  have e : ' ' :: ("with .Values.".data ++ (l ++ '.' :: k)) =
      ' ' :: ("with".data ++ ' ' :: ((".Values.".data ++ (l ++ '.' :: k)) ++ [])) := by
    simp
  have hw : tplWords [] (' ' :: ("with".data ++ ' ' :: ((".Values.".data ++ (l ++ '.' :: k)) ++ []))) =
      ["with".data, ".Values.".data ++ (l ++ '.' :: k)] := by
    rw [tplWords]
    simp only [tplSpace, decide_True, Bool.true_or, Bool.or_true, if_true, List.isEmpty_nil]
    rw [tplWords_append [] "with".data _ (by decide)]
    rw [tplWords]
    simp only [tplSpace, decide_True, Bool.true_or, Bool.or_true, if_true]
    rw [tplWords_append [] _ [] (fieldWord_facts l k hl hk).1]
    simp [tplWords]
  rw [e, parseAction, hw]
  simp only [if_true, parsePipeline_field l k hl hk, Option.map_some']

theorem parseAction_if (l k : List Char) (hl : isIdent l = true) (hk : isIdent k = true) :
    parseAction (' ' :: ("if .Values.".data ++ (l ++ '.' :: (k ++ [' '])))) =
      some (.ifNode [[.field ["Values", String.mk l, String.mk k]]]) := by
  have e : ' ' :: ("if .Values.".data ++ (l ++ '.' :: (k ++ [' ']))) =
      ' ' :: ("if".data ++ ' ' :: ((".Values.".data ++ (l ++ '.' :: k)) ++ [' '])) := by
    simp
  have hw : tplWords [] (' ' :: ("if".data ++ ' ' :: ((".Values.".data ++ (l ++ '.' :: k)) ++ [' ']))) =
      ["if".data, ".Values.".data ++ (l ++ '.' :: k)] := by
    rw [tplWords]
    simp only [tplSpace, decide_True, Bool.true_or, Bool.or_true, if_true, List.isEmpty_nil]
    rw [tplWords_append [] "if".data _ (by decide)]
    rw [tplWords]
    simp only [tplSpace, decide_True, Bool.true_or, Bool.or_true, if_true]
    rw [tplWords_append [] _ [' '] (fieldWord_facts l k hl hk).1]
    simp [tplWords, tplSpace]
  rw [e, parseAction, hw]
  have hne : "if".data ≠ "with".data := by decide
  simp only [hne, if_false, if_true, parsePipeline_field l k hl hk, Option.map_some']

theorem parseAction_dot : parseAction " . ".data = some (.print [[.dot]]) := by
  rfl

theorem parseAction_end : parseAction " end".data = some .endNode := by
  rfl

theorem chartNameOk_facts (c : List Char) (h : chartNameOk c = true) :
    ∀ x ∈ c, x ≠ '"' ∧ x ≠ '\\' ∧ x ≠ '\x7d' ∧ tplSpace x = false := by
  intro x hx
  simp only [chartNameOk, List.all_eq_true] at h
  have hx1 := h x hx
  simp only [Bool.and_eq_true, bne_iff_ne, ne_eq, Bool.not_eq_true'] at hx1
  exact ⟨hx1.1.1.1, hx1.1.1.2, hx1.1.2, hx1.2⟩

theorem parseQuoted_append (s r : List Char) (hs : ∀ x ∈ s, x ≠ '"' ∧ x ≠ '\\') :
    parseQuoted (s ++ r) = (parseQuoted r).map (fun t => s ++ t) := by
  induction s with
  | nil => simp
  | cons c s ih =>
    have hc := hs c (by simp)
    simp only [List.cons_append, parseQuoted, hc.1, hc.2, if_false, List.append_eq]
    rw [ih (fun x hx => hs x (by simp [hx]))]
    cases parseQuoted r <;> rfl

theorem quotedWord_facts (c : List Char) (h : chartNameOk c = true) :
    (∀ x ∈ '"' :: (c ++ ".selectorLabels\"".data), tplSpace x = false) ∧
    (∀ x ∈ '"' :: (c ++ ".selectorLabels\"".data), x ≠ '\x7d') := by
  have hlit : (∀ x ∈ ".selectorLabels\"".data, tplSpace x = false) ∧
      (∀ x ∈ ".selectorLabels\"".data, x ≠ '\x7d') := by decide
  constructor
  · intro x hx
    rcases List.mem_cons.1 hx with rfl | hx
    · rfl
    · rcases List.mem_append.1 hx with hx | hx
      · exact (chartNameOk_facts c h x hx).2.2.2
      · exact hlit.1 x hx
  · intro x hx
    rcases List.mem_cons.1 hx with rfl | hx
    · decide
    · rcases List.mem_append.1 hx with hx | hx
      · exact (chartNameOk_facts c h x hx).2.2.1
      · exact hlit.2 x hx

theorem parseWord_quoted (c : List Char) (h : chartNameOk c = true) :
    parseWord ('"' :: (c ++ ".selectorLabels\"".data)) =
      some (.str (String.mk (c ++ ".selectorLabels".data))) := by
  have hq : parseQuoted (c ++ ".selectorLabels\"".data) = some (c ++ ".selectorLabels".data) := by
    rw [parseQuoted_append c _ (fun x hx =>
      ⟨(chartNameOk_facts c h x hx).1, (chartNameOk_facts c h x hx).2.1⟩)]
    rfl
  have h1 : ('"' : Char) ≠ '.' := by decide
  simp only [parseWord, h1, if_false, if_true, hq, Option.map_some']

theorem tplWords_pipe_tail (cur : List Char) (hcur : cur ≠ []) :
    tplWords cur " . | nindent 6 ".data =
      [cur, ".".data, "|".data, "nindent".data, "6".data] := by
  cases cur with
  | nil => exact absurd rfl hcur
  | cons a as => rfl

theorem include_words (c : List Char) (h : chartNameOk c = true) :
    tplWords [] ("include".data ++ ' ' :: (('"' :: (c ++ ".selectorLabels\"".data)) ++
        " . | nindent 6 ".data)) =
      ["include".data, '"' :: (c ++ ".selectorLabels\"".data), ".".data, "|".data,
       "nindent".data, "6".data] := by
  have s1 : ∀ X, tplWords ([] ++ "include".data) (' ' :: X) =
      "include".data :: tplWords [] X := fun X => rfl
  rw [tplWords_append [] "include".data _ (by decide), s1,
    tplWords_append [] _ _ (quotedWord_facts c h).1, List.nil_append,
    tplWords_pipe_tail _ (by simp)]

theorem parseAction_include (c : List Char) (h : chartNameOk c = true) :
    parseAction (includeBody c) =
      some (.print [[.fn "include", .str (String.mk (c ++ ".selectorLabels".data)), .dot],
                    [.fn "nindent", .num 6]]) := by
  have hne : ('"' :: (c ++ ".selectorLabels\"".data)) ≠ ['|'] := by
    intro h0
    exact absurd (List.cons.inj h0).1 (by decide)
  have h1 : "include".data ≠ "with".data := by decide
  have h2 : "include".data ≠ "if".data := by decide
  have h3 : "include".data ≠ "end".data := by decide
  have h4 : "include".data ≠ "else".data := by decide
  have h5 : "include".data ≠ ['|'] := by decide
  have h6 : ".".data ≠ ['|'] := by decide
  have h7 : "nindent".data ≠ ['|'] := by decide
  have h8 : "6".data ≠ ['|'] := by decide
  have p1 : parseWord "include".data = some (.fn "include") := by rfl
  have p2 : parseWord ".".data = some .dot := by rfl
  have p3 : parseWord "nindent".data = some (.fn "nindent") := by rfl
  have p4 : parseWord "6".data = some (.num 6) := by rfl
  have hp : ("|".data = ['|']) := rfl
  rw [parseAction, includeBody, include_words c h]
  simp only [h1, h2, h3, h4, if_false, parsePipeline, splitPipe, h5, hne, h6, h7, h8, hp,
    if_true, List.map_cons, List.map_nil, List.isEmpty_cons, Bool.false_eq_true,
    p1, p2, p3, p4, parseWord_quoted c h, allSome, Option.map_some']
  rfl

/-! ## The tokens of the generated text -/

theorem withBody_no_close (l k : List Char) (hl : isIdent l = true) (hk : isIdent k = true) :
    ∀ x ∈ withBody l k, x ≠ '\x7d' := by
  have hlit : ∀ x ∈ "with .Values.".data, x ≠ '\x7d' := by decide
  intro x hx
  rcases List.mem_append.1 hx with h | h
  · exact hlit x h
  · rcases List.mem_append.1 h with h | h
    · exact (identChar_facts x (isIdent_all l hl x h)).2.1
    · rcases List.mem_cons.1 h with rfl | h
      · decide
      · exact (identChar_facts x (isIdent_all k hk x h)).2.1

theorem includeBody_no_close (c : List Char) (h : chartNameOk c = true) :
    ∀ x ∈ includeBody c, x ≠ '\x7d' := by
  have hlit : (∀ x ∈ "include".data, x ≠ '\x7d') ∧ (∀ x ∈ " . | nindent 6 ".data, x ≠ '\x7d') := by
    decide
  intro x hx
  rcases List.mem_append.1 hx with hx | hx
  · exact hlit.1 x hx
  · rcases List.mem_cons.1 hx with rfl | hx
    · decide
    · rcases List.mem_append.1 hx with hx | hx
      · exact (quotedWord_facts c h).2 x hx
      · exact hlit.2 x hx

theorem includeBody_last (c : List Char) : (includeBody c).getLast? ≠ some '-' := by
  have e : includeBody c =
      ("include".data ++ ' ' :: (('"' :: (c ++ ".selectorLabels\"".data)) ++
        " . | nindent 6".data)) ++ [' '] := by
    simp [includeBody]
  rw [e, List.getLast?_append]
  simp

theorem selectorText_plain (f : List Char) (hf : noOpenDelim f = true) :
    plainText ("\n  selector:\n".data ++ (f ++ "\n    ".data)) = true :=
  plainText_wrap _ f _ hf (by decide) (by decide) (by decide) (by decide)

theorem lex_specActions (pre l f c r : List Char) (hpre : plainText pre = true)
    (hpre0 : pre ≠ []) (hl : isIdent l = true) (hf : noOpenDelim f = true)
    (hc : chartNameOk c = true) :
    lexTemplate false 0 (pre ++ specActions l f c r) =
      .text pre :: (specTokens l f c ++ lexTemplate false 0 r) := by
  have hmin : isIdent "minAvailable".data = true := by decide
  have hmax : isIdent "maxUnavailable".data = true := by decide
  unfold specActions
  rw [lex_segment_rtrim pre _ _ hpre (withBody_no_close l _ hl hmin),
    lex_segment_plain "\n  minAvailable: ".data ". ".data _ (by decide) (by decide) (by decide)
      (by decide),
    lex_segment_rtrim "\n  ".data "end".data _ (by decide) (by decide),
    lex_segment_rtrim "\n  ".data _ _ (by decide) (withBody_no_close l _ hl hmax),
    lex_segment_plain "\n  maxUnavailable: ".data ". ".data _ (by decide) (by decide) (by decide)
      (by decide),
    lex_segment_rtrim "\n  ".data "end".data _ (by decide) (by decide),
    lex_segment_ltrim _ (includeBody c) r (selectorText_plain f hf)
      (includeBody_no_close c hc) (includeBody_last c)]
  rw [foldr_pushText_action pre _ _ _ _ hpre0, foldr_pushText_action _ _ _ _ _ (by decide),
    foldr_pushText_action _ _ _ _ _ (by decide), foldr_pushText_action _ _ _ _ _ (by decide),
    foldr_pushText_action _ _ _ _ _ (by decide), foldr_pushText_action _ _ _ _ _ (by decide),
    foldr_pushText_action _ _ _ _ _ (by simp)]
  rfl

theorem selectorText_trim (f : List Char) :
    dropRightWhile tplSpace
        (List.dropWhile tplSpace ("\n  selector:\n".data ++ (f ++ "\n    ".data))) =
      dropRightWhile tplSpace ("selector:\n".data ++ f) := by
  have e : List.dropWhile tplSpace ("\n  selector:\n".data ++ (f ++ "\n    ".data)) =
      ("selector:\n".data ++ f) ++ "\n    ".data := by
    have e1 : List.dropWhile tplSpace ("\n  selector:\n".data ++ (f ++ "\n    ".data)) =
        "selector:\n".data ++ (f ++ "\n    ".data) := rfl
    rw [e1, List.append_assoc]
  rw [e]
  exact dropRightWhile_append_all tplSpace _ _ (by decide)

theorem trim_text_keep (s b : List Char) (r : Bool) (rest : List TplToken) :
    trimTokens false (.text s :: .action b false r :: rest) =
      .text s :: .action b false r :: trimTokens r rest := by
  rfl

theorem trim_text_after (s b : List Char) (r : Bool) (rest : List TplToken) :
    trimTokens true (.text s :: .action b false r :: rest) =
      .text (s.dropWhile tplSpace) :: .action b false r :: trimTokens r rest := by
  rfl

theorem trim_text_both (s b : List Char) (r : Bool) (rest : List TplToken) :
    trimTokens true (.text s :: .action b true r :: rest) =
      .text (dropRightWhile tplSpace (s.dropWhile tplSpace)) ::
        .action b true r :: trimTokens r rest := by
  rfl

theorem parse_text (s : List Char) (rest : List TplToken) :
    parseTokens (.text s :: rest) = (parseTokens rest).map (fun ns => .text s :: ns) := by
  rfl

theorem parse_action (b : List Char) (l r : Bool) (rest : List TplToken) (n : TplNode)
    (h : parseAction b = some n) :
    parseTokens (.action b l r :: rest) = (parseTokens rest).map (fun ns => n :: ns) := by
  simp only [parseTokens, h]

theorem parse_specTokens (pre l f c : List Char) (rest : List TplToken)
    (hl : isIdent l = true) (hc : chartNameOk c = true) :
    parseTokens (trimTokens false (.text pre :: (specTokens l f c ++ rest))) =
      (parseTokens (trimTokens false rest)).map
        (fun ns => .text pre :: (specNodes l f c ++ ns)) := by
  have hmin : isIdent "minAvailable".data = true := by decide
  have hmax : isIdent "maxUnavailable".data = true := by decide
  have e : TplToken.text pre :: (specTokens l f c ++ rest) =
      .text pre :: .action (' ' :: withBody l "minAvailable".data) false true ::
      .text "\n  minAvailable: ".data :: .action " . ".data false false ::
      .text "\n  ".data :: .action " end".data false true ::
      .text "\n  ".data :: .action (' ' :: withBody l "maxUnavailable".data) false true ::
      .text "\n  maxUnavailable: ".data :: .action " . ".data false false ::
      .text "\n  ".data :: .action " end".data false true ::
      .text ("\n  selector:\n".data ++ (f ++ "\n    ".data)) ::
      .action (includeBody c) true false :: rest := rfl
  rw [e, trim_text_keep, trim_text_after, trim_text_keep, trim_text_after, trim_text_after,
    trim_text_keep, trim_text_both, selectorText_trim]
  rw [parse_text, parse_action _ _ _ _ _ (parseAction_with l _ hl hmin),
    parse_text, parse_action _ _ _ _ _ parseAction_dot,
    parse_text, parse_action _ _ _ _ _ parseAction_end,
    parse_text, parse_action _ _ _ _ _ (parseAction_with l _ hl hmax),
    parse_text, parse_action _ _ _ _ _ parseAction_dot,
    parse_text, parse_action _ _ _ _ _ parseAction_end,
    parse_text, parse_action _ _ _ _ _ (parseAction_include c hc)]
  cases parseTokens (trimTokens false rest) <;> rfl

/-! ## Executing the generated text -/

theorem evalFields_values (d : TplData) (L key : String) (m : Values) (v : Option Value)
    (hv : mapGet d.values L = some (.map m)) (hk : mapGet m key = v) :
    evalFields (some (.map [("Values", .map d.values)])) ["Values", L, key] = .ok v := by
  simp [evalFields, mapGet, hv, hk]

theorem exec_text (d : TplData) (stack : List (Option Value × Bool)) (dot : Option Value)
    (s : List Char) (rest : List TplNode) :
    execNodes d stack dot true (.text s :: rest) =
      match execNodes d stack dot true rest with
      | .error e => .error e
      | .ok out => .ok (s ++ out) := by
  rw [execNodes]
  cases execNodes d stack dot true rest <;> rfl

theorem exec_with_line (d : TplData) (stack : List (Option Value × Bool)) (dot : Option Value)
    (path : List String) (key : List Char) (v : Option Value) (rest : List TplNode)
    (hev : evalFields dot path = .ok v) :
    execNodes d stack dot true
        (.withNode [[.field path]] :: .text (key ++ ": ".data) :: .print [[.dot]] ::
          .text "\n  ".data :: .endNode :: rest) =
      match execNodes d stack dot true rest with
      | .error e => .error e
      | .ok out => .ok (lineChars key v ++ out) := by
  by_cases hv : isTrue v = true
  · simp only [execNodes, evalPipeline, evalCommand, evalArg, hev, hv, if_true, lineChars]
    cases execNodes d stack dot true rest <;> simp
  · simp only [execNodes, evalPipeline, evalCommand, evalArg, hev, hv, if_true,
      Bool.false_eq_true, if_false, lineChars, List.nil_append]
    cases execNodes d stack dot true rest <;> rfl

theorem eval_include (d : TplData) (name inc : String)
    (hi : d.templates name (some (.map [("Values", .map d.values)])) = some inc) :
    evalPipeline d (some (.map [("Values", .map d.values)]))
        [[.fn "include", .str name, .dot], [.fn "nindent", .num 6]] none =
      .ok (some (.str ("\n" ++ sprigIndent 6 inc))) := by
  simp [evalPipeline, evalCommand, evalArgs, evalArg, callFunction, hi]

theorem exec_include (d : TplData) (stack : List (Option Value × Bool)) (name inc : String)
    (rest : List TplNode)
    (hi : d.templates name (some (.map [("Values", .map d.values)])) = some inc) :
    execNodes d stack (some (.map [("Values", .map d.values)])) true
        (.print [[.fn "include", .str name, .dot], [.fn "nindent", .num 6]] :: rest) =
      match execNodes d stack (some (.map [("Values", .map d.values)])) true rest with
      | .error e => .error e
      | .ok out => .ok (('\n' :: (sprigIndent 6 inc).data) ++ out) := by
  rw [execNodes]
  simp only [if_true, eval_include d name inc hi]
  cases execNodes d stack (some (.map [("Values", .map d.values)])) true rest <;> rfl

theorem exec_specNodes (d : TplData) (l f c : List Char) (stack : List (Option Value × Bool))
    (m : Values) (a b : Option Value) (inc : String) (rest : List TplNode)
    (hv : mapGet d.values (String.mk l) = some (.map m))
    (ha : mapGet m "minAvailable" = a)
    (hb : mapGet m "maxUnavailable" = b)
    (hi : d.templates (String.mk (c ++ ".selectorLabels".data))
      (some (.map [("Values", .map d.values)])) = some inc) :
    execNodes d stack (some (.map [("Values", .map d.values)])) true (specNodes l f c ++ rest) =
      match execNodes d stack (some (.map [("Values", .map d.values)])) true rest with
      | .error e => .error e
      | .ok out =>
        .ok (lineChars "minAvailable".data a ++ (lineChars "maxUnavailable".data b ++
          (dropRightWhile tplSpace ("selector:\n".data ++ f) ++
            (('\n' :: (sprigIndent 6 inc).data) ++ out)))) := by
  have e : specNodes l f c ++ rest =
      .withNode [[.field ["Values", String.mk l, "minAvailable"]]] ::
      .text ("minAvailable".data ++ ": ".data) :: .print [[.dot]] :: .text "\n  ".data ::
      .endNode :: .text [] ::
      .withNode [[.field ["Values", String.mk l, "maxUnavailable"]]] ::
      .text ("maxUnavailable".data ++ ": ".data) :: .print [[.dot]] :: .text "\n  ".data ::
      .endNode :: .text (dropRightWhile tplSpace ("selector:\n".data ++ f)) ::
      .print [[.fn "include", .str (String.mk (c ++ ".selectorLabels".data)), .dot],
              [.fn "nindent", .num 6]] :: rest := rfl
  rw [e, exec_with_line d stack _ _ _ a _ (evalFields_values d _ _ m _ hv ha), exec_text,
    exec_with_line d stack _ _ _ b _ (evalFields_values d _ _ m _ hv hb), exec_text,
    exec_include d stack _ inc rest hi]
  cases execNodes d stack (some (.map [("Values", .map d.values)])) true rest <;> rfl

theorem specStanza_data (L F C : String) :
    (Sprintf pdbTempSpec [L, F, C]).data =
      "\nspec:\n  ".data ++ specActions L.data F.data C.data [] := by
  rw [Sprintf_pdbTempSpec_flat]
  simp only [specActions, withBody, includeBody, List.append_assoc, List.cons_append,
    String.data_append]
  rfl

theorem wrapped_data (L F C P : String) :
    (Docf pdbWrapperSpec [L, P ++ Sprintf pdbTempSpec [L, F, C]]).data =
      '\x7b' :: '\x7b' :: ' ' :: (ifBody L.data ++ '\x7d' :: '\x7d' ::
        (("\n".data ++ (P.data ++ "\nspec:\n  ".data)) ++
          specActions L.data F.data C.data guardTail)) := by
  have h : Docf pdbWrapperSpec [L, P ++ Sprintf pdbTempSpec [L, F, C]] =
      "\x7b\x7b if .Values." ++ (L ++ (".enabled \x7d\x7d\n" ++
        ((P ++ Sprintf pdbTempSpec [L, F, C]) ++ "\n\x7b\x7b end \x7d\x7d\n"))) := by rfl
  rw [h, Sprintf_pdbTempSpec_flat]
  simp only [specActions, withBody, includeBody, ifBody, guardTail, List.append_assoc,
    List.cons_append, String.data_append]
  rfl

theorem renderedLine_data (key : String) (v : Option Value) :
    (renderedLine key v).data = lineChars key.data v := by
  by_cases hv : isTrue v = true
  · simp [renderedLine, lineChars, hv, String.data_append]
  · simp [renderedLine, lineChars, hv]

theorem ifBody_facts (l : List Char) (hl : isIdent l = true) :
    (∀ x ∈ ifBody l, x ≠ '\x7d') ∧ (ifBody l).getLast? ≠ some '-' ∧ ifBody l ≠ [] := by
  have hlit : (∀ x ∈ "if .Values.".data, x ≠ '\x7d') ∧
      (∀ x ∈ "enabled".data ++ [' '], x ≠ '\x7d') := by decide
  refine ⟨?_, ?_, ?_⟩
  · intro x hx
    rcases List.mem_append.1 hx with h | h
    · exact hlit.1 x h
    · rcases List.mem_append.1 h with h | h
      · exact (identChar_facts x (isIdent_all l hl x h)).2.1
      · rcases List.mem_cons.1 h with rfl | h
        · decide
        · exact hlit.2 x h
  · have e : ifBody l = ("if .Values.".data ++ (l ++ '.' :: "enabled".data)) ++ [' '] := by
      simp [ifBody]
    rw [e, List.getLast?_append]
    simp
  · simp [ifBody]

theorem lex_guardTail :
    lexTemplate false 0 guardTail =
      [.text "\n".data, .action " end ".data false false, .text "\n".data] := by
  rfl

theorem exec_if_true (d : TplData) (stack : List (Option Value × Bool)) (dot : Option Value)
    (path : List String) (rest : List TplNode)
    (hev : evalFields dot path = .ok (some (.bool true))) :
    execNodes d stack dot true (.ifNode [[.field path]] :: rest) =
      execNodes d ((dot, true) :: stack) dot true rest := by
  simp only [execNodes, evalPipeline, evalCommand, evalArg, hev, isTrue, if_true]

/-- The spec stanza renders to the `spec:` line, the lines of the thresholds that are set
and not empty, the selector and the included labels. -/
theorem render_specStanza (d : TplData) (L F C : String) (m : Values) (a b : Option Value)
    (inc : String)
    (hL : isIdent L.data = true) (hF : noOpenDelim F.data = true)
    (hC : chartNameOk C.data = true)
    (hv : mapGet d.values L = some (.map m))
    (ha : mapGet m "minAvailable" = a)
    (hb : mapGet m "maxUnavailable" = b)
    (hi : d.templates (C ++ ".selectorLabels") (some (.map [("Values", .map d.values)])) =
      some inc) :
    render d (Sprintf pdbTempSpec [L, F, C]) =
      .ok ("\nspec:\n  " ++ (renderedLine "minAvailable" a ++ (renderedLine "maxUnavailable" b ++
        (String.mk (dropRightWhile tplSpace ("selector:\n" ++ F).data) ++
          ("\n" ++ sprigIndent 6 inc))))) := by
  have hi1 : d.templates (String.mk (C.data ++ ".selectorLabels".data))
      (some (.map [("Values", .map d.values)])) = some inc := hi
  have hv1 : mapGet d.values (String.mk L.data) = some (.map m) := hv
  rw [render, specStanza_data,
    lex_specActions _ _ _ _ _ (by decide) (by decide) hL hF hC,
    parse_specTokens _ _ _ _ _ hL hC]
  have e1 : lexTemplate false 0 [] = [] := rfl
  have e2 : parseTokens (trimTokens false []) = some [] := rfl
  rw [e1, e2]
  simp only [Option.map_some']
  rw [exec_text, exec_specNodes d _ _ _ _ m a b inc [] hv1 ha hb hi1]
  have e3 : execNodes d [] (some (.map [("Values", .map d.values)])) true [] = .ok [] := rfl
  rw [e3]
  simp only [List.append_nil]
  congr 1
  apply String.ext
  simp only [String.data_append, renderedLine_data, List.append_assoc]
  rfl

theorem lex_pieces (d : TplData) (dot : Option Value) (ps : List Piece) (r : List Char)
    (h : ps.all (Piece.ok d dot) = true) :
    lexTemplate false 0 (writePieces ps r) = pieceTokens ps (lexTemplate false 0 r) := by
  induction ps with
  | nil => rfl
  | cons p ps ih =>
    simp only [List.all_cons, Bool.and_eq_true] at h
    obtain ⟨hp, hps⟩ := h
    simp only [Piece.ok, Bool.and_eq_true, List.all_eq_true, bne_iff_ne, ne_eq,
      Bool.not_eq_true', List.isEmpty_eq_false] at hp
    obtain ⟨⟨⟨⟨h1, h2⟩, h3⟩, h4⟩, _⟩ := hp
    have h4a : p.body ≠ [] := by
      intro h0
      rw [h0] at h4
      simp at h4
    show lexTemplate false 0 (p.chars (writePieces ps r)) = _
    rw [pieceTokens, ← ih hps]
    cases ht : p.trim
    · simp only [Piece.chars, Piece.lexed, ht, Bool.false_eq_true, if_false]
      exact lex_segment_plain p.text p.body _ h1 h2 h3 h4a
    · simp only [Piece.chars, Piece.lexed, ht, if_true]
      exact lex_segment_ltrim p.text p.body _ h1 h2 h3

theorem printed_some (d : TplData) (dot : Option Value) (p : Piece)
    (h : (p.printed d dot).isSome = true) :
    ∃ pipe v, parseAction p.lexed = some (.print pipe) ∧
      evalPipeline d dot pipe none = .ok v ∧ p.printed d dot = some (printValue v) := by
  unfold Piece.printed at h ⊢
  split at h
  · rename_i pipe hp
    split at h
    · rename_i v hv
      exact ⟨pipe, v, hp, hv, by simp only [hp, hv]⟩
    · simp at h
  · simp at h

theorem run_action (d : TplData) (stack : List (Option Value × Bool)) (dot : Option Value)
    (b : List Char) (l : Bool) (pipe : List (List TplArg)) (v : Option Value)
    (rest : List TplToken)
    (hp : parseAction b = some (.print pipe)) (hv : evalPipeline d dot pipe none = .ok v) :
    runTokens d stack dot (.action b l false :: rest) =
      match runTokens d stack dot rest with
      | .error e => .error e
      | .ok out => .ok (printValue v ++ out) := by
  have e : trimTokens false (.action b l false :: rest) =
      .action b l false :: trimTokens false rest := rfl
  rw [runTokens, e, parse_action _ _ _ _ _ hp, runTokens]
  cases parseTokens (trimTokens false rest) with
  | none => rfl
  | some ns =>
    simp only [Option.map_some', execNodes, if_true, hv]

theorem run_text_action (d : TplData) (stack : List (Option Value × Bool))
    (dot : Option Value) (s b : List Char) (l : Bool) (rest : List TplToken) :
    runTokens d stack dot (.text s :: .action b l false :: rest) =
      match runTokens d stack dot (.action b l false :: rest) with
      | .error e => .error e
      | .ok out => .ok ((if l then dropRightWhile tplSpace s else s) ++ out) := by
  have e : trimTokens false (.text s :: .action b l false :: rest) =
      .text (if l then dropRightWhile tplSpace s else s) ::
        trimTokens false (.action b l false :: rest) := by
    cases l <;> rfl
  rw [runTokens, e, parse_text, runTokens]
  cases parseTokens (trimTokens false (.action b l false :: rest)) with
  | none => rfl
  | some ns =>
    simp only [Option.map_some', execNodes, if_true]

theorem run_pieces (d : TplData) (stack : List (Option Value × Bool)) (dot : Option Value)
    (ps : List Piece) (rest : List TplToken) (h : ps.all (Piece.ok d dot) = true) :
    runTokens d stack dot (pieceTokens ps rest) =
      match runTokens d stack dot rest with
      | .error e => .error e
      | .ok out => .ok (piecesOut d dot ps ++ out) := by
  induction ps with
  | nil =>
    show runTokens d stack dot rest = _
    cases runTokens d stack dot rest <;> rfl
  | cons p ps ih =>
    simp only [List.all_cons, Bool.and_eq_true] at h
    obtain ⟨hp, hps⟩ := h
    simp only [Piece.ok, Bool.and_eq_true] at hp
    obtain ⟨pipe, v, hpa, hev, hpr⟩ := printed_some d dot p hp.2
    rw [pieceTokens, piecesOut, hpr]
    by_cases hs : p.text = []
    · rw [hs]
      simp only [List.foldr_nil]
      rw [run_action d stack dot _ _ pipe v _ hpa hev, ih hps]
      cases runTokens d stack dot rest with
      | error e => rfl
      | ok out =>
        have e0 : dropRightWhile tplSpace ([] : List Char) = [] := rfl
        simp only [e0, ite_self, List.nil_append, Option.getD_some, List.append_assoc]
    · rw [foldr_pushText_action _ _ _ _ _ hs, run_text_action d stack dot,
        run_action d stack dot _ _ pipe v _ hpa hev, ih hps]
      cases runTokens d stack dot rest with
      | error e => rfl
      | ok out =>
        simp only [Option.getD_some, List.append_assoc]

theorem render_run (d : TplData) (tpl : String) :
    render d tpl =
      match runTokens d [] (some (.map [("Values", .map d.values)]))
          (lexTemplate false 0 tpl.data) with
      | .error e => .error e
      | .ok out => .ok (String.mk out) := by
  unfold render runTokens
  cases parseTokens (trimTokens false (lexTemplate false 0 tpl.data)) with
  | none => rfl
  | some ns =>
    cases execNodes d [] (some (.map [("Values", .map d.values)])) true ns <;> rfl

theorem run_if (d : TplData) (stack : List (Option Value × Bool)) (l : List Char)
    (m : Values) (rest : List TplToken) (hl : isIdent l = true)
    (hv : mapGet d.values (String.mk l) = some (.map m))
    (he : mapGet m "enabled" = some (.bool true)) :
    runTokens d stack (some (.map [("Values", .map d.values)]))
        (.action (' ' :: ifBody l) false false :: rest) =
      runTokens d ((some (.map [("Values", .map d.values)]), true) :: stack)
        (some (.map [("Values", .map d.values)])) rest := by
  have e : trimTokens false (.action (' ' :: ifBody l) false false :: rest) =
      .action (' ' :: ifBody l) false false :: trimTokens false rest := rfl
  have hen : isIdent "enabled".data = true := by decide
  have hpi : parseAction (' ' :: ifBody l) =
      some (.ifNode [[.field ["Values", String.mk l, String.mk "enabled".data]]]) :=
    parseAction_if l "enabled".data hl hen
  have hen2 : String.mk "enabled".data = "enabled" := rfl
  rw [runTokens, e, parse_action _ _ _ _ _ hpi, runTokens]
  cases parseTokens (trimTokens false rest) with
  | none => rfl
  | some ns =>
    simp only [Option.map_some']
    rw [hen2, exec_if_true d stack _ _ _ (evalFields_values d (String.mk l) "enabled" m _ hv he)]

theorem run_spec (d : TplData) (stack : List (Option Value × Bool)) (pre l f c : List Char)
    (m : Values) (a b : Option Value) (inc : String) (rest : List TplToken)
    (hl : isIdent l = true) (hc : chartNameOk c = true)
    (hv : mapGet d.values (String.mk l) = some (.map m))
    (ha : mapGet m "minAvailable" = a)
    (hb : mapGet m "maxUnavailable" = b)
    (hi : d.templates (String.mk (c ++ ".selectorLabels".data))
      (some (.map [("Values", .map d.values)])) = some inc) :
    runTokens d stack (some (.map [("Values", .map d.values)]))
        (.text pre :: (specTokens l f c ++ rest)) =
      match runTokens d stack (some (.map [("Values", .map d.values)])) rest with
      | .error e => .error e
      | .ok out =>
        .ok (pre ++ (lineChars "minAvailable".data a ++ (lineChars "maxUnavailable".data b ++
          (dropRightWhile tplSpace ("selector:\n".data ++ f) ++
            (('\n' :: (sprigIndent 6 inc).data) ++ out))))) := by
  rw [runTokens, parse_specTokens _ _ _ _ _ hl hc, runTokens]
  cases parseTokens (trimTokens false rest) with
  | none => rfl
  | some ns =>
    simp only [Option.map_some']
    rw [exec_text, exec_specNodes d _ _ _ _ m a b inc _ hv ha hb hi]
    cases execNodes d stack (some (.map [("Values", .map d.values)])) true ns <;> rfl

theorem run_guardTail (d : TplData) (dot : Option Value) :
    runTokens d [(dot, true)] dot
        [.text "\n".data, .action " end ".data false false, .text "\n".data] =
      .ok "\n\n".data := by
  have e2 : parseTokens (trimTokens false
      [.text "\n".data, .action " end ".data false false, .text "\n".data]) =
      some [.text "\n".data, .endNode, .text "\n".data] := rfl
  rw [runTokens, e2]
  simp [execNodes]

theorem writePieces_append (ps : List Piece) (r t : List Char) :
    writePieces ps r ++ t = writePieces ps (r ++ t) := by
  induction ps with
  | nil => rfl
  | cons p ps ih =>
    show p.chars (writePieces ps r) ++ t = p.chars (writePieces ps (r ++ t))
    rw [← ih]
    cases ht : p.trim <;> simp [Piece.chars, ht]

theorem writePieces_lead (c : List Char) (ps : List Piece) (r : List Char) :
    c ++ writePieces ps r = writePieces (leadPieces c ps) (leadLast c ps [] ++ r) := by
  cases ps with
  | nil => simp [writePieces, leadPieces, leadLast]
  | cons p ps =>
    show c ++ p.chars (writePieces ps r) = Piece.chars _ (writePieces ps (leadLast c (p :: ps) [] ++ r))
    have e : leadLast c (p :: ps) [] = [] := rfl
    rw [e, List.nil_append]
    cases ht : p.trim <;> simp [Piece.chars, ht]

theorem plainText_newline (s : List Char) (h : plainText s = true) :
    plainText ('\n' :: s) = true := by
  cases s with
  | nil => rfl
  | cons x xs =>
    simp only [plainText, Bool.and_eq_true, noOpenDelim, List.getLast?_cons_cons] at h ⊢
    refine ⟨?_, h.2⟩
    simp [h.1]

theorem leadPieces_ok (d : TplData) (dot : Option Value) (ps : List Piece)
    (h : ps.all (Piece.ok d dot) = true) :
    (leadPieces "\n".data ps).all (Piece.ok d dot) = true := by
  cases ps with
  | nil => rfl
  | cons p ps =>
    simp only [List.all_cons, Bool.and_eq_true] at h
    simp only [leadPieces, List.all_cons, Bool.and_eq_true]
    refine ⟨?_, h.2⟩
    have hp := h.1
    simp only [Piece.ok, Bool.and_eq_true] at hp ⊢
    obtain ⟨⟨⟨⟨h1, h2⟩, h3⟩, h4⟩, h5⟩ := hp
    exact ⟨⟨⟨⟨plainText_newline _ h1, h2⟩, h3⟩, h4⟩, h5⟩

/-- The whole generated text, with a preamble made of texts and print actions and `enabled`
true, renders to the rendered preamble followed by the rendered spec stanza. -/
theorem render_guarded (d : TplData) (L F C : String) (ps : List Piece) (last : List Char)
    (m : Values) (a b : Option Value) (inc : String)
    (hL : isIdent L.data = true) (hF : noOpenDelim F.data = true)
    (hC : chartNameOk C.data = true)
    (hps : ps.all (Piece.ok d (some (.map [("Values", .map d.values)]))) = true)
    (hlast : noOpenDelim last = true)
    (hv : mapGet d.values L = some (.map m))
    (he : mapGet m "enabled" = some (.bool true))
    (ha : mapGet m "minAvailable" = a)
    (hb : mapGet m "maxUnavailable" = b)
    (hi : d.templates (C ++ ".selectorLabels") (some (.map [("Values", .map d.values)])) =
      some inc) :
    render d (Docf pdbWrapperSpec
        [L, String.mk (writePieces ps last) ++ Sprintf pdbTempSpec [L, F, C]]) =
      .ok (String.mk (piecesOut d (some (.map [("Values", .map d.values)]))
            (leadPieces "\n".data ps) ++ leadLast "\n".data ps last) ++
        ("\nspec:\n  " ++ (renderedLine "minAvailable" a ++
        (renderedLine "maxUnavailable" b ++
        (String.mk (dropRightWhile tplSpace ("selector:\n" ++ F).data) ++
          ("\n" ++ (sprigIndent 6 inc ++ "\n\n"))))))) := by
  have hi1 : d.templates (String.mk (C.data ++ ".selectorLabels".data))
      (some (.map [("Values", .map d.values)])) = some inc := hi
  have hv1 : mapGet d.values (String.mk L.data) = some (.map m) := hv
  have hps1 := leadPieces_ok d _ ps hps
  have hpre : plainText (leadLast "\n".data ps [] ++ (last ++ "\nspec:\n  ".data)) = true := by
    have h0 : plainText (leadLast "\n".data ps []) = true := by
      cases ps <;> rfl
    exact plainText_wrap _ last _ hlast h0 (by decide) (by decide) (by decide)
  have hpre0 : leadLast "\n".data ps [] ++ (last ++ "\nspec:\n  ".data) ≠ [] := by
    intro h
    have := congrArg List.length h
    simp at this
  have hdata : (Docf pdbWrapperSpec
        [L, String.mk (writePieces ps last) ++ Sprintf pdbTempSpec [L, F, C]]).data =
      [] ++ '\x7b' :: '\x7b' :: ' ' :: (ifBody L.data ++ '\x7d' :: '\x7d' ::
        writePieces (leadPieces "\n".data ps)
          ((leadLast "\n".data ps [] ++ (last ++ "\nspec:\n  ".data)) ++
            specActions L.data F.data C.data guardTail)) := by
    rw [wrapped_data, List.nil_append]
    congr 4
    rw [List.append_assoc, List.append_assoc, writePieces_append, writePieces_lead,
      List.append_assoc, List.append_assoc]
  rw [render_run, hdata,
    lex_segment_plain [] (ifBody L.data) _ (by decide) (ifBody_facts _ hL).1
      (ifBody_facts _ hL).2.1 (ifBody_facts _ hL).2.2,
    lex_pieces d _ _ _ hps1, lex_specActions _ _ _ _ _ hpre hpre0 hL hF hC, lex_guardTail]
  simp only [List.foldr_nil]
  rw [run_if d [] _ m _ hL hv1 he, run_pieces d _ _ _ _ hps1,
    run_spec d _ _ _ _ _ m a b inc _ hL hC hv1 ha hb hi1, run_guardTail]
  simp only []
  congr 1
  apply String.ext
  have hl : leadLast "\n".data ps last = leadLast "\n".data ps [] ++ last := by
    cases ps <;> simp [leadLast]
  simp only [String.data_append, renderedLine_data, List.append_assoc, hl]
  rfl

/-- C6, as it stands, fails for a Logical Name that is not an identifier: the object
`my-app-2nd-pdb` has the Logical Name `2NdPdb`, its maxUnavailable value "50%" is set and not
empty, and neither the returned text nor the generated spec body parses as a template, so
no `maxUnavailable:` line is rendered. -/
theorem render_threshold_lines_counterexample :
    logicalName exampleMeta digitPdb = "2NdPdb" ∧
    isIdent "2NdPdb".data = false ∧
    (Process exampleEnv exampleMeta digitPdb).2.1.map
        (fun t => evalFields (some (.map [("Values", .map t.values)]))
          ["Values", "2NdPdb", "maxUnavailable"]) = some (.ok (some (.str "50%"))) ∧
    (Process exampleEnv exampleMeta digitPdb).2.1.map
        (fun t => render { values := t.values, templates := chartTemplates } t.data) =
      some (.error "parse error") ∧
    render { values := valuesOf "2NdPdb" "50%" "", templates := chartTemplates }
        (Sprintf pdbTempSpec ["2NdPdb", exampleFragment, "my-app"]) = .error "parse error" := by
  refine ⟨by rfl, by rfl, by rfl, by rfl, by rfl⟩

/-- C6, amended: when the Logical Name `L` is an identifier, the selector fragment `F` holds
no left delimiter and the chart name `C` can stand in a quoted template name, rendering the
generated spec body gives, for every pair of values `a` and `b` of any type under `L`, the
`spec:` line, then the `minAvailable:` line exactly when `a` is set and not empty, then the
`maxUnavailable:` line exactly when `b` is set and not empty, then the selector clause; so
does rendering the whole generated text with `enabled` true, after the rendered preamble,
for a preamble made of texts and print actions.  A value that is not set or is empty (null,
"", 0, false) leaves nothing in the text, and a set value gives the key and the printed
value on one line. -/
theorem render_threshold_lines (d : TplData) (L F C : String) (ps : List Piece)
    (last : List Char) (m : Values) (a b : Option Value) (inc : String)
    (hL : isIdent L.data = true) (hF : noOpenDelim F.data = true)
    (hC : chartNameOk C.data = true)
    (hps : ps.all (Piece.ok d (some (.map [("Values", .map d.values)]))) = true)
    (hlast : noOpenDelim last = true)
    (hv : mapGet d.values L = some (.map m))
    (ha : mapGet m "minAvailable" = a)
    (hb : mapGet m "maxUnavailable" = b)
    (hi : d.templates (C ++ ".selectorLabels") (some (.map [("Values", .map d.values)])) =
      some inc) :
    render d (Sprintf pdbTempSpec [L, F, C]) =
      .ok ("\nspec:\n  " ++ (renderedLine "minAvailable" a ++ (renderedLine "maxUnavailable" b ++
        (String.mk (dropRightWhile tplSpace ("selector:\n" ++ F).data) ++
          ("\n" ++ sprigIndent 6 inc))))) ∧
    (mapGet m "enabled" = some (.bool true) →
      render d (Docf pdbWrapperSpec
          [L, String.mk (writePieces ps last) ++ Sprintf pdbTempSpec [L, F, C]]) =
        .ok (String.mk (piecesOut d (some (.map [("Values", .map d.values)]))
              (leadPieces "\n".data ps) ++ leadLast "\n".data ps last) ++
          ("\nspec:\n  " ++ (renderedLine "minAvailable" a ++
          (renderedLine "maxUnavailable" b ++
          (String.mk (dropRightWhile tplSpace ("selector:\n" ++ F).data) ++
            ("\n" ++ (sprigIndent 6 inc ++ "\n\n")))))))) ∧
    (∀ (key : String) (v : Option Value), isTrue v = false → renderedLine key v = "") ∧
    (∀ (key : String) (v : Option Value), isTrue v = true →
      renderedLine key v = key ++ (": " ++ (String.mk (printValue v) ++ "\n  "))) ∧
    (∀ key : String, renderedLine key none = "" ∧ renderedLine key (some .null) = "" ∧
      renderedLine key (some (.str "")) = "" ∧ renderedLine key (some (.int 0)) = "" ∧
      renderedLine key (some (.bool false)) = "") ∧
    (∀ key s : String, s ≠ "" →
      renderedLine key (some (.str s)) = key ++ (": " ++ (s ++ "\n  "))) ∧
    (∀ (key : String) (n : Int), n ≠ 0 →
      renderedLine key (some (.int n)) = key ++ (": " ++ (toString n ++ "\n  "))) := by
  refine ⟨render_specStanza d L F C m a b inc hL hF hC hv ha hb hi,
    fun he => render_guarded d L F C ps last m a b inc hL hF hC hps hlast hv he ha hb hi,
    ?_, ?_, fun key => ⟨rfl, rfl, rfl, rfl, rfl⟩, ?_, ?_⟩
  · intro key v hv0
    simp [renderedLine, hv0]
  · intro key v hv1
    simp [renderedLine, hv1]
  · intro key s hs
    simp [renderedLine, isTrue, hs, printValue, fmtValue]
  · intro key n hn
    simp [renderedLine, isTrue, hn, printValue, fmtValue]

/-- C6, on the examples: with maxUnavailable "50%" and minAvailable "" the rendered spec
body has the one threshold line `maxUnavailable: 50%`; with both values "" it holds only
the selector clause; a count 2 gives `minAvailable: 2` and a count 0 no line; the text that
Process returns for `my-app-pdb`, rendered with the values it returns, has the one line
`minAvailable: 2`; and a preamble whose labels are included with a trim marker renders in
front of the same spec block. -/
theorem render_threshold_lines_witness :
    render { values := valuesOf "pdb" "50%" "", templates := chartTemplates }
        (Sprintf pdbTempSpec ["pdb", exampleFragment, "my-app"]) =
      .ok "\nspec:\n  maxUnavailable: 50%\n  selector:\n    matchLabels:\n      app: web\n      app.kubernetes.io/name: my-app\n      app.kubernetes.io/instance: release" ∧
    render { values := valuesOf "pdb" "" "", templates := chartTemplates }
        (Sprintf pdbTempSpec ["pdb", exampleFragment, "my-app"]) =
      .ok "\nspec:\n  selector:\n    matchLabels:\n      app: web\n      app.kubernetes.io/name: my-app\n      app.kubernetes.io/instance: release" ∧
    render { values := [("pdb", .map [("maxUnavailable", .int 0), ("minAvailable", .int 2),
          ("enabled", .bool true)])], templates := chartTemplates }
        (Sprintf pdbTempSpec ["pdb", exampleFragment, "my-app"]) =
      .ok "\nspec:\n  minAvailable: 2\n  selector:\n    matchLabels:\n      app: web\n      app.kubernetes.io/name: my-app\n      app.kubernetes.io/instance: release" ∧
    (Process exampleEnv exampleMeta examplePdb).2.1 = some exampleResult ∧
    Docf pdbWrapperSpec ["pdb", String.mk (writePieces examplePieces "-pdb".data) ++
        Sprintf pdbTempSpec ["pdb", exampleFragment, "my-app"]] = exampleResult.data ∧
    render { values := exampleResult.values, templates := chartTemplates }
        (Docf pdbWrapperSpec ["pdb", String.mk (writePieces examplePieces "-pdb".data) ++
          Sprintf pdbTempSpec ["pdb", exampleFragment, "my-app"]]) =
      .ok "\napiVersion: policy/v1\nkind: PodDisruptionBudget\nmetadata:\n  name: release-my-app-pdb\nspec:\n  minAvailable: 2\n  selector:\n    matchLabels:\n      app: web\n      app.kubernetes.io/name: my-app\n      app.kubernetes.io/instance: release\n\n" ∧
    render { values := valuesOf "pdb" "50%" "", templates := chartTemplates }
        (Docf pdbWrapperSpec ["pdb", String.mk (writePieces labelPieces []) ++
          Sprintf pdbTempSpec ["pdb", exampleFragment, "my-app"]]) =
      .ok "\nmetadata:\n  name: release-my-app-pdb\n  labels:\n    app.kubernetes.io/name: my-app\n    app.kubernetes.io/instance: release\nspec:\n  maxUnavailable: 50%\n  selector:\n    matchLabels:\n      app: web\n      app.kubernetes.io/name: my-app\n      app.kubernetes.io/instance: release\n\n" :=
  ⟨(render_threshold_lines
      { values := valuesOf "pdb" "50%" "", templates := chartTemplates }
      "pdb" exampleFragment "my-app" [] [] _ (some (.str "")) (some (.str "50%")) exampleLabels
      (by decide) (by decide) (by decide) rfl rfl rfl rfl rfl rfl).1.trans (by rfl),
   (render_threshold_lines
      { values := valuesOf "pdb" "" "", templates := chartTemplates }
      "pdb" exampleFragment "my-app" [] [] _ (some (.str "")) (some (.str "")) exampleLabels
      (by decide) (by decide) (by decide) rfl rfl rfl rfl rfl rfl).1.trans (by rfl),
   (render_threshold_lines
      { values := [("pdb", .map [("maxUnavailable", .int 0), ("minAvailable", .int 2),
          ("enabled", .bool true)])], templates := chartTemplates }
      "pdb" exampleFragment "my-app" [] [] _ (some (.int 2)) (some (.int 0)) exampleLabels
      (by decide) (by decide) (by decide) rfl rfl rfl rfl rfl rfl).1.trans (by rfl),
   by rfl, by rfl,
   ((render_threshold_lines
      { values := exampleResult.values, templates := chartTemplates }
      "pdb" exampleFragment "my-app" examplePieces "-pdb".data _ (some (.str "2"))
      (some (.str "")) exampleLabels
      (by decide) (by decide) (by decide) (by rfl) (by decide) rfl rfl rfl rfl).2.1
        rfl).trans (by rfl),
   ((render_threshold_lines
      { values := valuesOf "pdb" "50%" "", templates := chartTemplates }
      "pdb" exampleFragment "my-app" labelPieces [] _ (some (.str "")) (some (.str "50%"))
      exampleLabels
      (by decide) (by decide) (by decide) (by rfl) (by decide) rfl rfl rfl rfl).2.1
        rfl).trans (by rfl)⟩

/-- C10: the text and the values tree of a handled resource use the same root key `L`: the
outer guard reads `.Values.L.enabled`, the two `with` blocks read `.Values.L.minAvailable`
and `.Values.L.maxUnavailable`, each of the three paths evaluates to a default in the
returned tree, and the tree holds `L` alone, with these three keys alone under it. -/
theorem Process_keys_agree (env : Env) (appMeta : AppMetadata) (obj : Unstructured)
    (t : result) (pdb : PodDisruptionBudget) (objMeta : String)
    (h : (Process env appMeta obj).2.1 = some t)
    (hd : env.FromUnstructured obj.Object = .ok pdb)
    (hm : env.ProcessObjMeta appMeta obj = .ok objMeta) :
    t.data =
      "\x7b\x7b if .Values." ++ (logicalName appMeta obj ++ (".enabled \x7d\x7d" ++
      ("\n" ++ (objMeta ++ ("\nspec:\n  " ++
      ("\x7b\x7b with .Values." ++ (logicalName appMeta obj ++ (".minAvailable -\x7d\x7d" ++
      ("\n  minAvailable: \x7b\x7b . \x7d\x7d\n  \x7b\x7b end -\x7d\x7d\n  " ++
      ("\x7b\x7b with .Values." ++ (logicalName appMeta obj ++ (".maxUnavailable -\x7d\x7d" ++
      ("\n  maxUnavailable: \x7b\x7b . \x7d\x7d\n  \x7b\x7b end -\x7d\x7d\n  selector:\n" ++
      (selectorFragment env pdb ++ ("\n    " ++ (includeRef appMeta.ChartName ++
      "\n\x7b\x7b end \x7d\x7d\n")))))))))))))))) ∧
    evalFields (some (.map [("Values", .map t.Values)]))
        ["Values", logicalName appMeta obj, "enabled"] = .ok (some (.bool true)) ∧
    evalFields (some (.map [("Values", .map t.Values)]))
        ["Values", logicalName appMeta obj, "minAvailable"] =
      .ok (some (.str (thresholdText pdb.Spec.MinAvailable))) ∧
    evalFields (some (.map [("Values", .map t.Values)]))
        ["Values", logicalName appMeta obj, "maxUnavailable"] =
      .ok (some (.str (thresholdText pdb.Spec.MaxUnavailable))) ∧
    mapKeys t.Values = [logicalName appMeta obj] ∧
    (∃ sub, mapGet t.Values (logicalName appMeta obj) = some (.map sub) ∧
      mapKeys sub = ["maxUnavailable", "minAvailable", "enabled"]) := by
  rw [Process_template_eq env appMeta obj t pdb objMeta h hd hm]
  refine ⟨?_, ?_, ?_, ?_, rfl, ⟨_, mapGet_self _ _ _, rfl⟩⟩
  · simp only [Docf_pdbWrapperSpec, Sprintf_pdbTempSpec_flat, guardOpen, guardClose, includeRef,
      String.append_assoc]
    rfl
  · simp [result.Values, valuesOf, evalFields, mapGet]
  · simp [result.Values, valuesOf, evalFields, mapGet]
  · simp [result.Values, valuesOf, evalFields, mapGet]

/-- C10, on the end-to-end example. -/
theorem Process_keys_agree_witness :
    (Process exampleEnv exampleMeta examplePdb).2.1 = some exampleResult ∧
    evalFields (some (.map [("Values", .map exampleResult.Values)]))
        ["Values", "pdb", "enabled"] = .ok (some (.bool true)) ∧
    mapKeys exampleResult.Values = ["pdb"] :=
  ⟨rfl,
   (Process_keys_agree exampleEnv exampleMeta examplePdb exampleResult examplePolicy
     examplePreamble rfl rfl rfl).2.1,
   (Process_keys_agree exampleEnv exampleMeta examplePdb exampleResult examplePolicy
     examplePreamble rfl rfl rfl).2.2.2.2.1⟩

end Helmify
